import Mathlib

/-!
Verification of static-site-minifier, `cmd/builder/main.go`.

A shallow embedding of the build pipeline (`build`, `roundFloat`,
`generateTimestampHTMLComment`) and of the reload broadcaster (`wsHandler`),
followed by the properties established about them.

Conventions of the embedding:

* `int64` values are `Int`s kept in range by `wrapInt64` after every addition
  and subtraction; the two `int` file counters are only ever incremented once per
  walked file and are kept as unbounded `Int`s.
* `float64` values are modelled exactly (`Float64`): every finite binary64 number is an
  integer multiple of `2 ^ (-1074)`, the arithmetic rounds to nearest, ties to even.
* The operating system, the minifier library and the clock are an explicit
  environment `Env`; the source tree is an explicit `FsNode`. `filepath.Join`,
  `filepath.Rel` and `filepath.Dir` are part of the environment, `filepath.Ext` and
  `strings.ToLower` are written out (for `/` as the separator).
* `filepath.WalkDir` is modelled from the Go standard library, including the
  directory skipping sentinels, so that "the walk is never pruned" is a theorem
  about the callback and not an assumption.
* The handlers of `wsHandler` are a transition system in which one iteration of
  `for range reload` is one step; writes are protected by the client lock in the
  source and are never interleaved here.
-/

namespace Builder

/-! ## `float64` -/

/-- The number of units `2 ^ (-1074)` in one: every finite `float64` is `k` units. -/
def unitsPerOne : Nat := 2 ^ 1074

/-- The first magnitude, in units, that no longer fits a finite `float64` (`2 ^ 1024`). -/
def overflowUnits : Nat := 2 ^ 2098

/-- An IEEE-754 binary64 value: NaN, an infinity, or the finite value
`(-1) ^ neg * k * 2 ^ (-1074)` (so `fin true 0` is the negative zero). -/
inductive Float64
  | nan
  | inf (neg : Bool)
  | fin (neg : Bool) (k : Nat)
deriving DecidableEq, Repr

/-- Helper of `bitLen`; the first argument bounds the number of halvings. -/
def bitLenAux : Nat → Nat → Nat
  | 0, _ => 0
  | fuel + 1, n => if n = 0 then 0 else bitLenAux fuel (n / 2) + 1

/-- The number of binary digits of `n` (`0` for `0`). -/
def bitLen (n : Nat) : Nat := bitLenAux n n

/-- The integer nearest to `a / d`, ties going to the even one. -/
def roundHalfEven (a d : Nat) : Nat :=
  let q := a / d
  let r := a % d
  if 2 * r < d then q else if d < 2 * r then q + 1 else if q % 2 = 0 then q else q + 1

/-- The `float64` nearest to the rational `(-1) ^ neg * num / den` (`den` positive):
53 significant bits above the subnormal range, whole units inside it, ties to even,
overflow to infinity. -/
def Float64.ofRat (neg : Bool) (num den : Nat) : Float64 :=
  let a := num * unitsPerOne
  let quantum := 2 ^ (bitLen (a / den) - 53)
  let k := roundHalfEven a (den * quantum) * quantum
  if overflowUnits ≤ k then .inf neg else .fin neg k

/-- The conversion `float64(i)` of an integer. -/
def Float64.ofInt (i : Int) : Float64 := Float64.ofRat (decide (i < 0)) i.natAbs 1

/-- The `float64` quotient `x / y`. Dividing by zero raises nothing: it yields NaN for
`0 / 0` and an infinity otherwise. -/
def Float64.div : Float64 → Float64 → Float64
  | .fin a x, .fin b y =>
      if y = 0 then (if x = 0 then .nan else .inf (xor a b)) else Float64.ofRat (xor a b) x y
  | .fin a _, .inf b => .fin (xor a b) 0
  | .inf a, .fin b _ => .inf (xor a b)
  | _, _ => .nan

/-- The `float64` product `x * y`. -/
def Float64.mul : Float64 → Float64 → Float64
  | .fin a x, .fin b y => Float64.ofRat (xor a b) (x * y) (unitsPerOne * unitsPerOne)
  | .fin a x, .inf b => if x = 0 then .nan else .inf (xor a b)
  | .inf a, .fin b y => if y = 0 then .nan else .inf (xor a b)
  | .inf a, .inf b => .inf (xor a b)
  | _, _ => .nan

/-- Go `math.Round`: the nearest integer, halves away from zero; NaN, the infinities
and the zeros are returned unchanged. -/
def math_Round : Float64 → Float64
  | .fin neg k => .fin neg ((2 * k + unitsPerOne) / (2 * unitsPerOne) * unitsPerOne)
  | x => x

/-- Go `math.Pow(10, float64(precision))`, which is the exactly representable power of
ten for the small precisions in use (`build` only passes `2`, giving `100`). -/
def math_Pow10 (precision : Nat) : Float64 := Float64.ofInt (10 ^ precision)

/-- Source `roundFloat`:
`ratio := math.Pow(10, float64(precision)); return math.Round(val*ratio) / ratio`. -/
def roundFloat (val : Float64) (precision : Nat) : Float64 :=
  let ratio := math_Pow10 precision
  Float64.div (math_Round (Float64.mul val ratio)) ratio

/-! ## machine integers, strings, paths -/

/-- Two's complement wrap-around of `int64` arithmetic. -/
def wrapInt64 (x : Int) : Int := (x + 2 ^ 63) % 2 ^ 64 - 2 ^ 63

abbrev Bytes := List UInt8

/-- The bytes of a Go string constant (its UTF-8 encoding). -/
def stringBytes (s : String) : Bytes := s.data.flatMap String.utf8EncodeChar

/-- Go `strings.HasPrefix`. -/
def strings_HasPrefix (s pre : String) : Bool := pre.data.isPrefixOf s.data

/-- Go `strings.ToLower`, on the ASCII letters. (The Unicode letters that Go also maps
never map onto a letter of `.html`, `.css` or `.js`.) -/
def strings_ToLower (s : String) : String := ⟨s.data.map Char.toLower⟩

/-- Go `os.IsPathSeparator`. -/
def isPathSeparator (c : Char) : Bool := c = '/'

/-- The loop of `filepath.Ext`, run over the reversed path: `seen` is the part of the
path to the right of the scanning position. -/
def extScan : List Char → List Char → List Char
  | [], _ => []
  | c :: before, seen =>
      if isPathSeparator c then []
      else if c = '.' then c :: seen
      else extScan before (c :: seen)

/-- Go `filepath.Ext`: the suffix starting at the last dot of the last path element,
empty when that element has no dot. -/
def filepath_Ext (path : String) : String := ⟨extScan path.data.reverse []⟩

/-! ## the environment -/

/-- An error value returned by the operating system or by the minifier. -/
structure OsError where
  msg : String
deriving DecidableEq, Repr

/-- What `io.Copy` did: it copied everything, or failed after `written` bytes. -/
inductive CopyResult
  | ok
  | failed (written : Nat) (e : OsError)
deriving DecidableEq, Repr

/-- Everything `build` asks of the outside world. `none` stands for a nil error. -/
structure Env where
  /-- The result of `filepath.Join(a, b)`. -/
  join : String → String → String
  /-- The result of `filepath.Rel(base, target)` (its error is discarded by `build`). -/
  rel : String → String → String
  /-- The result of `filepath.Dir(path)`. -/
  dir : String → String
  /-- The error of `os.MkdirAll(path, os.ModePerm)`. -/
  mkdirAll : String → Option OsError
  /-- The size reported by `os.Stat(path)`, `none` when `os.Stat` fails (and returns a
  nil `FileInfo`). -/
  stat : String → Option Int
  /-- The result of `os.ReadFile(path)`. -/
  readFile : String → Except OsError Bytes
  /-- The result of the minifier, `m.Bytes(mediaType, input)`. -/
  minifyBytes : String → Bytes → Except OsError Bytes
  /-- The error of `os.WriteFile(path, data, 0644)`. -/
  writeFile : String → Bytes → Option OsError
  /-- The result of `os.Open(path)`: the bytes that can be read from the handle. -/
  openFile : String → Except OsError Bytes
  /-- The error of `os.Create(path)`. -/
  create : String → Option OsError
  /-- The result of `io.Copy(dstFile, srcFile)` for the handles of `dst` and `src`. -/
  copy : String → String → CopyResult
  /-- The error of `Close` on the handle of `path`. -/
  closeFile : String → Option OsError
  /-- The result of `mime.TypeByExtension(ext)`. -/
  typeByExtension : String → String
  /-- The result of `time.Now().UTC().Format(time.RFC3339)`. -/
  now : String

/-- An `fs.DirEntry`, as far as `build` looks at it. -/
structure DirEntry where
  name : String
  isDir : Bool
deriving DecidableEq, Repr

mutual
/-- An entry of the source tree: something that is not a directory, or a directory
with the outcome of `os.ReadDir` on it (its error, and the entries it returned,
sorted by name). -/
inductive FsNode
  | file (name : String)
  | dir (name : String) (readErr : Option OsError) (entries : FsList)
/-- A directory listing. -/
inductive FsList
  | nil
  | cons (head : FsNode) (tail : FsList)
end

/-- The `fs.DirEntry` of a node. -/
def FsNode.entry : FsNode → DirEntry
  | .file name => ⟨name, false⟩
  | .dir name _ _ => ⟨name, true⟩

/-- What a `fs.WalkDirFunc` hands back to the walk: a nil error, one of the two
sentinel errors, any other error, or a panic that unwinds through the walk. -/
inductive WalkRet
  | nil
  | skipDir
  | skipAll
  | err (e : OsError)
  | panic
deriving DecidableEq, Repr

/-! ## `filepath.WalkDir` (Go standard library) -/

mutual
/-- Go `filepath.walkDir`: call `fn` on the entry; for a directory read it, report a
read error through a second call, then walk the entries. A `SkipDir` answer for a
directory only leaves that directory. -/
def walkDir {σ : Type} (join : String → String → String)
    (fn : σ → String → Option DirEntry → Option OsError → σ × WalkRet)
    (path : String) : FsNode → σ → σ × WalkRet
  | .file name, s => fn s path (some ⟨name, false⟩) none
  | .dir name readErr entries, s =>
      let p := fn s path (some ⟨name, true⟩) none
      match p.2 with
      | .nil =>
          match readErr with
          | none => walkEntries join fn path entries p.1
          | some e =>
              let p2 := fn p.1 path (some ⟨name, true⟩) (some e)
              match p2.2 with
              | .nil => walkEntries join fn path entries p2.1
              | .skipDir => (p2.1, .nil)
              | r => (p2.1, r)
      | .skipDir => (p.1, .nil)
      | r => (p.1, r)
/-- The loop `for _, d1 := range dirs` of `filepath.walkDir` in the directory `path`:
`SkipDir` from an entry ends the loop, any other error is returned. -/
def walkEntries {σ : Type} (join : String → String → String)
    (fn : σ → String → Option DirEntry → Option OsError → σ × WalkRet)
    (path : String) : FsList → σ → σ × WalkRet
  | .nil, s => (s, .nil)
  | .cons d1 rest, s =>
      let p := walkDir join fn (join path d1.entry.name) d1 s
      match p.2 with
      | .nil => walkEntries join fn path rest p.1
      | .skipDir => (p.1, .nil)
      | r => (p.1, r)
end

/-- Go `filepath.WalkDir`: `lstat` is the outcome of `os.Lstat(root)`, an error or the
tree found there. The sentinels are turned into a nil error at the end. -/
def filepath_WalkDir {σ : Type} (join : String → String → String)
    (fn : σ → String → Option DirEntry → Option OsError → σ × WalkRet)
    (root : String) (lstat : Except OsError FsNode) (s : σ) : σ × WalkRet :=
  let p := match lstat with
    | .error e => fn s root none (some e)
    | .ok tree => walkDir join fn root tree s
  match p.2 with
  | .skipDir => (p.1, .nil)
  | .skipAll => (p.1, .nil)
  | r => (p.1, r)

/-! ## `build` -/

def mimeTypeHTML : String := "text/html"
def mimeTypeCSS : String := "text/css"
def mimeTypeJS : String := "application/javascript"
def fileExtHTML : String := ".html"
def fileExtCSS : String := ".css"
def fileExtJS : String := ".js"
def newline : String := "\n"

/-- Source `generateTimestampHTMLComment`, given the formatted current time. -/
def generateTimestampHTMLComment (now : String) : String :=
  "<!-- minified at " ++ now ++ " -->"

/-- A change `build` made to the file system. -/
inductive FsEffect
  /-- `os.MkdirAll(path)` succeeded. -/
  | mkdirAll (path : String)
  /-- `os.WriteFile(path, data)` succeeded: the file holds `data`. -/
  | writeFile (path : String) (data : Bytes)
  /-- `os.Create(path)` succeeded: the file exists and is empty. -/
  | create (path : String)
  /-- `io.Copy` put `data` into the file created at `path`. -/
  | copy (path : String) (data : Bytes)
deriving DecidableEq, Repr

/-- A record handed to the logger. -/
inductive LogRecord
  | minified (path mimeType : String) (sourceBytes minifiedBytes : Int)
      (minifiedReduction : Float64)
  | copied (path mimeType : String) (sourceBytes : Int)
  | closeError (msg path : String) (e : OsError)
  | buildSummary (totalFiles totalProcessedFiles : Int) (totalMinifiedReduction : Float64)
deriving DecidableEq, Repr

/-- The local variables of `build` that the walk callback updates, with the effects
on the file system and the log so far. -/
structure BuildState where
  totalFiles : Int
  processedFiles : Int
  totalSaved : Int
  originalSize : Int
  effects : List FsEffect
  logs : List LogRecord
deriving DecidableEq, Repr

/-- The state at the start of `build`. -/
def BuildState.init : BuildState := ⟨0, 0, 0, 0, [], []⟩

/-- The inner `switch ext` (lines 81-88): the media type of a minified extension. -/
def mediaTypeOf (ext : String) : String :=
  if ext = fileExtHTML then mimeTypeHTML
  else if ext = fileExtCSS then mimeTypeCSS
  else if ext = fileExtJS then mimeTypeJS
  else ""

/-- A deferred `Close` whose error is only logged. -/
def deferredClose (env : Env) (msg path : String) (s : BuildState) : BuildState :=
  match env.closeFile path with
  | none => s
  | some e => { s with logs := s.logs ++ [.closeError msg path e] }

/-- Lines 100-103: the bytes handed to `os.WriteFile` for the minifier output
`minified0`; the timestamp comment is appended when `mediaType == fileExtHTML`. -/
def writtenBytes (env : Env) (mediaType : String) (minified0 : Bytes) : Bytes :=
  if mediaType = fileExtHTML then
    minified0 ++ stringBytes newline ++ stringBytes (generateTimestampHTMLComment env.now)
  else minified0

/-- Line 156: the bytes `io.Copy(dstFile, srcFile)` puts into the destination, all of
`content` or the part written before the failure. -/
def copiedBytes (env : Env) (srcPath destPath : String) (content : Bytes) : Bytes :=
  match env.copy destPath srcPath with
  | .ok => content
  | .failed written _ => content.take written

/-- The `case fileExtHTML, fileExtCSS, fileExtJS` branch from line 90 on, `mediaType`
being the value the inner switch has just chosen. -/
def minifyFile (env : Env) (s : BuildState) (srcPath relPath destPath mediaType : String)
    (srcSize : Int) : BuildState × WalkRet :=
  match env.readFile srcPath with
  | .error e => (s, .err e)
  | .ok input =>
    match env.minifyBytes mediaType input with
    | .error e => (s, .err e)
    | .ok minified0 =>
      let minified := writtenBytes env mediaType minified0
      match env.mkdirAll (env.dir destPath) with
      | some e => (s, .err e)
      | none =>
        let s1 : BuildState := { s with effects := s.effects ++ [.mkdirAll (env.dir destPath)] }
        match env.writeFile destPath minified with
        | some e => (s1, .err e)
        | none =>
          let minSize : Int := minified.length
          let saved := wrapInt64 (srcSize - minSize)
          let reduction :=
            roundFloat (Float64.mul (Float64.div (Float64.ofInt saved) (Float64.ofInt srcSize))
              (Float64.ofInt 100)) 2
          ({ s1 with
              effects := s1.effects ++ [.writeFile destPath minified]
              totalSaved := wrapInt64 (s1.totalSaved + saved)
              logs := s1.logs ++ [.minified relPath mediaType srcSize minSize reduction]
              processedFiles := s1.processedFiles + 1 }, .nil)

/-- The `default` branch (lines 129-163). The error of `io.Copy` is discarded. -/
def copyFile (env : Env) (s : BuildState) (srcPath relPath destPath ext : String) :
    BuildState × WalkRet :=
  match env.mkdirAll (env.dir destPath) with
  | some e => (s, .err e)
  | none =>
    let s1 : BuildState := { s with effects := s.effects ++ [.mkdirAll (env.dir destPath)] }
    match env.openFile srcPath with
    | .error e => (s1, .err e)
    | .ok content =>
      match env.create destPath with
      | some e => (deferredClose env "Error closing source file" srcPath s1, .err e)
      | none =>
        let s2 : BuildState := { s1 with effects := s1.effects ++ [.create destPath] }
        let copied : Bytes := copiedBytes env srcPath destPath content
        let size : Int := copied.length
        let s3 : BuildState := { s2 with
          effects := s2.effects ++ [.copy destPath copied]
          logs := s2.logs ++ [.copied relPath (env.typeByExtension ext) size] }
        let s4 : BuildState := deferredClose env "Error closing destination file" destPath s3
        (deferredClose env "Error closing source file" srcPath s4, .nil)

/-- The callback `build` passes to `filepath.WalkDir` (lines 61-165). -/
def walkFn (env : Env) (srcDir distDir : String) (s : BuildState) (srcPath : String)
    (d : Option DirEntry) (err : Option OsError) : BuildState × WalkRet :=
  match err with
  | some e => (s, .err e)
  | none =>
    match d with
    | none => (s, .panic)
    | some d =>
      if d.isDir || strings_HasPrefix d.name "." then (s, .nil)
      else
        let relPath := env.rel srcDir srcPath
        let destPath := env.join distDir relPath
        let ext := strings_ToLower (filepath_Ext srcPath)
        match env.stat srcPath with
        | none => (s, .panic)
        | some srcSize =>
          let s1 : BuildState := { s with
            totalFiles := s.totalFiles + 1
            originalSize := wrapInt64 (s.originalSize + srcSize) }
          if ext = fileExtHTML ∨ ext = fileExtCSS ∨ ext = fileExtJS then
            minifyFile env s1 srcPath relPath destPath (mediaTypeOf ext) srcSize
          else
            copyFile env s1 srcPath relPath destPath ext

/-- The record logged as `[Build Summary]`. -/
structure Summary where
  totalFiles : Int
  totalProcessedFiles : Int
  totalMinifiedReduction : Float64
deriving DecidableEq, Repr

/-- How a call of `build` ends: it returns an error value (`none` for nil), or a panic
leaves it. -/
inductive Outcome
  | returned (err : Option OsError)
  | panicked
deriving DecidableEq, Repr

/-- A finished call of `build`: how it ended, the final values of its variables with
the effects and log, and the summary record when one was logged. -/
structure BuildResult where
  outcome : Outcome
  state : BuildState
  summary : Option Summary
deriving DecidableEq, Repr

/-- Line 167: `roundFloat(float64(totalSaved)/float64(originalSize)*100, 2)`. -/
def totalReduction (totalSaved originalSize : Int) : Float64 :=
  roundFloat (Float64.mul (Float64.div (Float64.ofInt totalSaved) (Float64.ofInt originalSize))
    (Float64.ofInt 100)) 2

/-- Source `build`, for the source tree `lstat` found at `srcDir`. -/
def build (env : Env) (srcDir distDir : String) (lstat : Except OsError FsNode) : BuildResult :=
  match env.mkdirAll distDir with
  | some e => { outcome := .returned (some e), state := BuildState.init, summary := none }
  | none =>
    let s0 : BuildState := { BuildState.init with effects := [.mkdirAll distDir] }
    let p := filepath_WalkDir env.join (walkFn env srcDir distDir) srcDir lstat s0
    match p.2 with
    | .panic => { outcome := .panicked, state := p.1, summary := none }
    | r =>
      let summary : Summary :=
        ⟨p.1.totalFiles, p.1.processedFiles, totalReduction p.1.totalSaved p.1.originalSize⟩
      let s := { p.1 with logs := p.1.logs ++
        [.buildSummary summary.totalFiles summary.totalProcessedFiles
          summary.totalMinifiedReduction] }
      match r with
      | .err e => { outcome := .returned (some e), state := s, summary := some summary }
      | _ => { outcome := .returned none, state := s, summary := some summary }

/-! ## `wsHandler` -/

/-- A `*webSocketClient`, known by its identity: two clients are the same when they are
the same pointer. -/
abbrev webSocketClient := Nat

def webSocketMessageReload : String := "reload"

/-- One call of `c.conn.WriteMessage(websocket.TextMessage, payload)` and whether it
returned a nil error. -/
structure Write where
  client : webSocketClient
  payload : String
  ok : Bool
deriving DecidableEq, Repr

/-- The state shared by the handlers that `wsHandler` returns. -/
structure HubState where
  /-- The keys of the `clients` map, in the order `Range` visits them. -/
  clients : List webSocketClient
  /-- The clients whose handler is inside its `for range reload` loop. -/
  serving : List webSocketClient
  /-- The clients on whose connection `conn.Close()` has been called. -/
  closed : List webSocketClient
  /-- The calls of `WriteMessage` so far. -/
  writes : List Write
  /-- The number of `WebSocket write failed` warnings logged. -/
  warnings : Nat
deriving DecidableEq, Repr

/-- No client has connected yet. -/
def HubState.init : HubState := ⟨[], [], [], [], 0⟩

/-- Go `sync.Map.Range` over the keys `snapshot`: a key deleted in the meantime is
passed over, and `f` answering `false` ends the iteration. -/
def syncMap_Range (f : HubState → webSocketClient → HubState × Bool) :
    List webSocketClient → HubState → HubState
  | [], s => s
  | k :: ks, s =>
      if k ∈ s.clients then
        let p := f s k
        if p.2 then syncMap_Range f ks p.1 else p.1
      else syncMap_Range f ks s

/-- The function passed to `clients.Range` (lines 311-321): write the reload message
to `c` under its lock, delete `c` from the map when the write fails, and go on. -/
def sendReload (writeErr : webSocketClient → Option OsError) (s : HubState) (c : webSocketClient) :
    HubState × Bool :=
  let s1 : HubState :=
    { s with writes := s.writes ++ [⟨c, webSocketMessageReload, (writeErr c).isNone⟩] }
  match writeErr c with
  | some _ => ({ s1 with warnings := s1.warnings + 1, clients := s1.clients.erase c }, true)
  | none => (s1, true)

/-- The body of `for range reload` (lines 310-321), `writeErr` giving the error of the
write to each client. -/
def broadcast (writeErr : webSocketClient → Option OsError) (s : HubState) : HubState :=
  syncMap_Range (sendReload writeErr) s.clients s

/-- What can happen to the handlers. -/
inductive HubEvent
  /-- A request whose upgrade fails (lines 292-296). -/
  | upgradeFailed
  /-- A request whose upgrade succeeds: the new client `c` is stored and its handler
  enters the loop (lines 297-309). -/
  | connected (c : webSocketClient)
  /-- The handler of `receiver` takes one value from `reload` and runs the loop body. -/
  | reload (receiver : webSocketClient) (writeErr : webSocketClient → Option OsError)
  /-- The handler of `c` finds `reload` closed: its loop ends and the deferred function
  (lines 301-307) runs. -/
  | reloadClosed (c : webSocketClient)

/-- Source `wsHandler`, as the steps of the handler it returns: every request runs one
copy of the handler, and all copies share `clients` and the channel `reload`. -/
def wsHandler (s : HubState) : HubEvent → HubState
  | .upgradeFailed => s
  | .connected c =>
      { s with
        clients := if c ∈ s.clients then s.clients else s.clients ++ [c]
        serving := s.serving ++ [c] }
  | .reload receiver writeErr =>
      if receiver ∈ s.serving then broadcast writeErr s else s
  | .reloadClosed c =>
      if c ∈ s.serving then
        { s with
          clients := s.clients.erase c
          closed := s.closed ++ [c]
          serving := s.serving.erase c }
      else s

/-- The state after a sequence of events. -/
def HubState.run (s : HubState) (events : List HubEvent) : HubState :=
  events.foldl wsHandler s

/-! ## the calls of an unpruned walk -/

/-- One call `fn(path, d, err)` of the walk callback. -/
structure WalkCall where
  path : String
  d : Option DirEntry
  err : Option OsError
deriving DecidableEq, Repr

mutual
/-- The calls a walk of the node makes when no call answers with an error: every
entry at every depth, directories before their contents. -/
def FsNode.calls (join : String → String → String) (path : String) : FsNode → List WalkCall
  | .file name => [⟨path, some ⟨name, false⟩, none⟩]
  | .dir name readErr entries =>
      ⟨path, some ⟨name, true⟩, none⟩ ::
        ((match readErr with
          | none => []
          | some e => [⟨path, some ⟨name, true⟩, some e⟩]) ++ FsList.calls join path entries)
/-- The calls of a walk of a directory listing. -/
def FsList.calls (join : String → String → String) (path : String) : FsList → List WalkCall
  | .nil => []
  | .cons d1 rest => FsNode.calls join (join path d1.entry.name) d1 ++ FsList.calls join path rest
end

/-- The calls of `filepath.WalkDir(root, fn)`. -/
def rootCalls (join : String → String → String) (root : String) :
    Except OsError FsNode → List WalkCall
  | .error e => [⟨root, none, some e⟩]
  | .ok tree => tree.calls join root

/-- Make the calls in order until one does not answer nil. -/
def walkList {σ : Type} (fn : σ → String → Option DirEntry → Option OsError → σ × WalkRet) :
    List WalkCall → σ → σ × WalkRet
  | [], s => (s, .nil)
  | c :: cs, s =>
      let p := fn s c.path c.d c.err
      match p.2 with
      | .nil => walkList fn cs p.1
      | r => (p.1, r)

mutual
/-- Every entry of the tree that is not a directory, at every depth and whatever the
names of the directories above it, as the pair of its path and its own name. -/
def FsNode.files (join : String → String → String) (path : String) :
    FsNode → List (String × String)
  | .file name => [(path, name)]
  | .dir _ _ entries => FsList.files join path entries
/-- The files below a directory listing. -/
def FsList.files (join : String → String → String) (path : String) :
    FsList → List (String × String)
  | .nil => []
  | .cons d1 rest => FsNode.files join (join path d1.entry.name) d1 ++ FsList.files join path rest
end

mutual
/-- Every `os.ReadDir` of the tree succeeds. -/
def FsNode.readable : FsNode → Bool
  | .file _ => true
  | .dir _ readErr entries => readErr.isNone && FsList.readable entries
/-- Every `os.ReadDir` below the listing succeeds. -/
def FsList.readable : FsList → Bool
  | .nil => true
  | .cons d1 rest => FsNode.readable d1 && FsList.readable rest
end

/-- The callback never answers with one of the two sentinels. -/
def NoSkip {σ : Type} (fn : σ → String → Option DirEntry → Option OsError → σ × WalkRet) : Prop :=
  ∀ s p d e, (fn s p d e).2 ≠ .skipDir ∧ (fn s p d e).2 ≠ .skipAll

/-! ## what one call of the callback does -/

/-- The answer of the callback of `build` to a call. -/
def callRet (env : Env) (srcDir distDir : String) (c : WalkCall) : WalkRet :=
  (walkFn env srcDir distDir BuildState.init c.path c.d c.err).2

/-- The calls `build` makes: those of the unpruned walk up to and including the first
one that is not answered with nil. -/
def reachedCalls (env : Env) (srcDir distDir : String) : List WalkCall → List WalkCall
  | [] => []
  | c :: cs =>
      if callRet env srcDir distDir c = .nil then c :: reachedCalls env srcDir distDir cs
      else [c]

/-- The call is for an entry that is not a directory and whose own name has no
leading dot. -/
def WalkCall.isVisibleFile (c : WalkCall) : Bool :=
  match c.err, c.d with
  | none, some d => !(d.isDir || strings_HasPrefix d.name ".")
  | _, _ => false

/-- The size added to `originalSize` at a call (lines 73-76): the size `os.Stat` reports
for a visible file, nothing for any other call. -/
def countedSize (env : Env) (c : WalkCall) : Option Int :=
  if c.isVisibleFile then env.stat c.path else none

/-- The sum of the sizes added to `originalSize` over the calls made. -/
def countedBytes (env : Env) (srcDir distDir : String) (cs : List WalkCall) : Int :=
  ((reachedCalls env srcDir distDir cs).map (fun c => (countedSize env c).getD 0)).sum

/-- The bytes a `[Minified]` record reports as saved: source bytes less minified bytes. -/
def LogRecord.saved : LogRecord → Int
  | .minified _ _ sourceBytes minifiedBytes _ => sourceBytes - minifiedBytes
  | _ => 0

/-- The source bytes of a `[Minified]` record. -/
def LogRecord.minifiedSource : LogRecord → Int
  | .minified _ _ sourceBytes _ _ => sourceBytes
  | _ => 0

/-- The savings summed over the files that were minified (the `[Minified]` records). -/
def minifiedSaved (logs : List LogRecord) : Int := (logs.map LogRecord.saved).sum

/-- The source sizes summed over the files that were minified. -/
def minifiedSource (logs : List LogRecord) : Int := (logs.map LogRecord.minifiedSource).sum

/-- The paths of the files an effect list writes: the targets of `os.WriteFile` and of
`io.Copy`. -/
def outputPaths (effects : List FsEffect) : List String :=
  effects.filterMap fun
    | .writeFile path _ => some path
    | .copy path _ => some path
    | _ => none

/-- The test of the outer `switch ext` (line 79) on the path of an entry. -/
def isMinifiedPath (srcPath : String) : Bool :=
  decide (strings_ToLower (filepath_Ext srcPath) = fileExtHTML ∨
    strings_ToLower (filepath_Ext srcPath) = fileExtCSS ∨
    strings_ToLower (filepath_Ext srcPath) = fileExtJS)

/-- The destination path `build` computes for a source path (lines 69-70). -/
def destOf (env : Env) (srcDir distDir srcPath : String) : String :=
  env.join distDir (env.rel srcDir srcPath)

/-- The calls answered with nil before the first call that is not. -/
def okCalls (env : Env) (srcDir distDir : String) (cs : List WalkCall) : List WalkCall :=
  cs.takeWhile (fun c => decide (callRet env srcDir distDir c = .nil))

/-- The file a call is about: the path and own name of an entry that is not a
directory. -/
def fileOfCall (c : WalkCall) : Option (String × String) :=
  match c.err, c.d with
  | none, some d => if d.isDir then none else some (c.path, d.name)
  | _, _ => none

/-- The own name of a file does not begin with a dot. -/
def visibleName (f : String × String) : Bool := !strings_HasPrefix f.2 "."

/-- Every operation `build` can ask of the environment succeeds. (`Close` is left free:
its error is only logged.) -/
structure AllSucceed (env : Env) : Prop where
  mkdirAll : ∀ p, env.mkdirAll p = none
  stat : ∀ p, ∃ n, env.stat p = some n
  readFile : ∀ p, ∃ b, env.readFile p = .ok b
  minifyBytes : ∀ m b, ∃ o, env.minifyBytes m b = .ok o
  writeFile : ∀ p b, env.writeFile p b = none
  openFile : ∀ p, ∃ b, env.openFile p = .ok b
  create : ∀ p, env.create p = none
  copy : ∀ d s, env.copy d s = .ok

/-- The state and the answer with which the walk of `build` ends. -/
def walked (env : Env) (srcDir distDir : String) (lstat : Except OsError FsNode) :
    BuildState × WalkRet :=
  walkList (walkFn env srcDir distDir) (rootCalls env.join srcDir lstat)
    { BuildState.init with effects := [.mkdirAll distDir] }

/-! ## the classifier of the specification -/

/-- The categories of the specification's data model; `verbatim` is the category of
files copied byte for byte. -/
inductive Category
  | markup
  | stylesheet
  | script
  | verbatim
deriving DecidableEq, Repr

/-- The classifier as the specification words it, on the lowercased extension:
`.html` is markup, `.css` a stylesheet, `.js` a script, anything else is copied. -/
def classify (lowerExt : String) : Category :=
  if lowerExt = ".html" then .markup
  else if lowerExt = ".css" then .stylesheet
  else if lowerExt = ".js" then .script
  else .verbatim

/-- The aggregate the claim describes for a finished run: both sums taken over the
files that were minified only, put through the arithmetic of line 167. -/
def claimedReduction (logs : List LogRecord) : Float64 :=
  totalReduction (minifiedSaved logs) (minifiedSource logs)

/-! ## a concrete environment and concrete trees -/

/-- The bytes of the files of the sample site: every file holds `a b c`. -/
def demoContent : Bytes := [97, 32, 98, 32, 99]

/-- A sample environment in which everything succeeds: paths are joined with `/`, every
file holds `demoContent`, and the minifier drops the spaces. -/
def demoEnv : Env where
  join a b := a ++ "/" ++ b
  rel base target := ⟨target.data.drop (base.length + 1)⟩
  dir p := ⟨((p.data.reverse.dropWhile (· ≠ '/')).drop 1).reverse⟩
  mkdirAll _ := none
  stat _ := some 5
  readFile _ := .ok demoContent
  minifyBytes _ b := .ok (b.filter (· ≠ 32))
  writeFile _ _ := none
  openFile _ := .ok demoContent
  create _ := none
  copy _ _ := .ok
  closeFile _ := none
  typeByExtension _ := ""
  now := "2024-05-01T12:00:00Z"

/-- The sample environment with every `io.Copy` failing after one byte. -/
def copyFailsEnv : Env :=
  { demoEnv with copy := fun _ _ => .failed 1 ⟨"no space left on device"⟩ }

/-- The sample environment with every `os.Stat` failing. -/
def statFailsEnv : Env := { demoEnv with stat := fun _ => none }

/-- The site of the specification's scenario: `index.html`, `logo.png`, `style.css`. -/
def siteTree : FsNode :=
  .dir "src" none (.cons (.file "index.html") (.cons (.file "logo.png")
    (.cons (.file "style.css") .nil)))

/-- A source directory that holds nothing. -/
def emptyTree : FsNode := .dir "src" none .nil

/-- A site with a hidden directory and a hidden file: `.git/config`, `.hidden`,
`index.html`. -/
def hiddenTree : FsNode :=
  .dir "src" none (.cons (.dir ".git" none (.cons (.file "config") .nil))
    (.cons (.file ".hidden") (.cons (.file "index.html") .nil)))

/-- Three clients `A`, `B`, `C` (1, 2, 3) have connected, in that order. -/
def threeClients : HubState :=
  HubState.init.run [.connected 1, .connected 2, .connected 3]

/-- The write to client `B` (2) fails, every other write succeeds. -/
def failsOnB : webSocketClient → Option OsError :=
  fun c => if c = 2 then some ⟨"broken pipe"⟩ else none

/-- Every write succeeds. -/
def noFailure : webSocketClient → Option OsError := fun _ => none

/-! ## the walk of `build` is never pruned -/

theorem walkList_append {σ : Type}
    (fn : σ → String → Option DirEntry → Option OsError → σ × WalkRet)
    (xs ys : List WalkCall) (s : σ) :
    walkList fn (xs ++ ys) s =
      if (walkList fn xs s).2 = .nil then walkList fn ys (walkList fn xs s).1
      else walkList fn xs s := by
  induction xs generalizing s with
  | nil => simp [walkList]
  | cons c cs ih =>
    simp only [List.cons_append, walkList]
    cases h : (fn s c.path c.d c.err).2 <;> simp [ih]

theorem walkList_noSkip {σ : Type}
    (fn : σ → String → Option DirEntry → Option OsError → σ × WalkRet) (h : NoSkip fn)
    (cs : List WalkCall) (s : σ) :
    (walkList fn cs s).2 ≠ .skipDir ∧ (walkList fn cs s).2 ≠ .skipAll := by
  induction cs generalizing s with
  | nil => simp [walkList]
  | cons c cs ih =>
    simp only [walkList]
    have hc := h s c.path c.d c.err
    cases hr : (fn s c.path c.d c.err).2 <;> simp_all

mutual
theorem walkDir_eq_walkList {σ : Type} (join : String → String → String)
    (fn : σ → String → Option DirEntry → Option OsError → σ × WalkRet) (h : NoSkip fn) :
    ∀ (n : FsNode) (path : String) (s : σ),
      walkDir join fn path n s = walkList fn (n.calls join path) s
  | .file name, path, s => by
      simp only [walkDir, FsNode.calls, walkList]
      have hc := h s path (some ⟨name, false⟩) none
      cases hr : (fn s path (some ⟨name, false⟩) none).2 <;> simp_all [Prod.ext_iff]
  | .dir name readErr entries, path, s => by
      have ih := walkEntries_eq_walkList join fn h entries path
      simp only [walkDir, FsNode.calls, walkList]
      have hc := h s path (some ⟨name, true⟩) none
      cases hr : (fn s path (some ⟨name, true⟩) none).2
      · cases readErr with
        | none => simp [ih]
        | some e =>
          simp only [List.singleton_append, walkList]
          have hc2 := h (fn s path (some ⟨name, true⟩) none).1 path (some ⟨name, true⟩) (some e)
          cases hr2 : (fn (fn s path (some ⟨name, true⟩) none).1 path (some ⟨name, true⟩) (some e)).2 <;>
            simp_all
      all_goals simp_all
theorem walkEntries_eq_walkList {σ : Type} (join : String → String → String)
    (fn : σ → String → Option DirEntry → Option OsError → σ × WalkRet) (h : NoSkip fn) :
    ∀ (l : FsList) (path : String) (s : σ),
      walkEntries join fn path l s = walkList fn (l.calls join path) s
  | .nil, path, s => by simp [walkEntries, FsList.calls, walkList]
  | .cons d1 rest, path, s => by
      have ih1 := walkDir_eq_walkList join fn h d1 (join path d1.entry.name) s
      have ih2 := walkEntries_eq_walkList join fn h rest path
      simp only [walkEntries, FsList.calls, walkList_append, ih1]
      have hn := walkList_noSkip fn h (d1.calls join (join path d1.entry.name)) s
      cases hr : (walkList fn (d1.calls join (join path d1.entry.name)) s).2 <;>
        simp_all [Prod.ext_iff]
end

theorem filepath_WalkDir_eq_walkList {σ : Type} (join : String → String → String)
    (fn : σ → String → Option DirEntry → Option OsError → σ × WalkRet) (h : NoSkip fn)
    (root : String) (lstat : Except OsError FsNode) (s : σ) :
    filepath_WalkDir join fn root lstat s = walkList fn (rootCalls join root lstat) s := by
  unfold filepath_WalkDir
  cases lstat with
  | error e =>
    simp only [rootCalls, walkList]
    have hc := h s root none (some e)
    cases hr : (fn s root none (some e)).2 <;> simp_all [Prod.ext_iff]
  | ok tree =>
    simp only [rootCalls, walkDir_eq_walkList join fn h]
    have hn := walkList_noSkip fn h (tree.calls join root) s
    cases hr : (walkList fn (tree.calls join root) s).2 <;> simp_all [Prod.ext_iff]

theorem wrapInt64_add_left (a b : Int) : wrapInt64 (wrapInt64 a + b) = wrapInt64 (a + b) := by
  unfold wrapInt64; omega

theorem wrapInt64_add_right (a b : Int) : wrapInt64 (a + wrapInt64 b) = wrapInt64 (a + b) := by
  unfold wrapInt64; omega

theorem wrapInt64_idem (a : Int) : wrapInt64 (wrapInt64 a) = wrapInt64 a := by
  unfold wrapInt64; omega

@[simp] theorem deferredClose_effects (env : Env) (msg path : String) (s : BuildState) :
    (deferredClose env msg path s).effects = s.effects := by
  unfold deferredClose; split <;> rfl

@[simp] theorem deferredClose_totalFiles (env : Env) (msg path : String) (s : BuildState) :
    (deferredClose env msg path s).totalFiles = s.totalFiles := by
  unfold deferredClose; split <;> rfl

@[simp] theorem deferredClose_processedFiles (env : Env) (msg path : String) (s : BuildState) :
    (deferredClose env msg path s).processedFiles = s.processedFiles := by
  unfold deferredClose; split <;> rfl

@[simp] theorem deferredClose_totalSaved (env : Env) (msg path : String) (s : BuildState) :
    (deferredClose env msg path s).totalSaved = s.totalSaved := by
  unfold deferredClose; split <;> rfl

@[simp] theorem deferredClose_originalSize (env : Env) (msg path : String) (s : BuildState) :
    (deferredClose env msg path s).originalSize = s.originalSize := by
  unfold deferredClose; split <;> rfl

/-- The minify branch either fails with an error before anything is written, or
performs exactly one `os.WriteFile` of the bytes `writtenBytes` and returns nil. -/
theorem minifyFile_spec (env : Env) (s : BuildState) (srcPath relPath destPath mt : String)
    (n : Int) :
    (∃ e, (minifyFile env s srcPath relPath destPath mt n).2 = .err e ∧
        ((minifyFile env s srcPath relPath destPath mt n).1 = s ∨
          (minifyFile env s srcPath relPath destPath mt n).1 =
            { s with effects := s.effects ++ [.mkdirAll (env.dir destPath)] })) ∨
    (∃ input out, env.readFile srcPath = .ok input ∧ env.minifyBytes mt input = .ok out ∧
        env.mkdirAll (env.dir destPath) = none ∧
        env.writeFile destPath (writtenBytes env mt out) = none ∧
        minifyFile env s srcPath relPath destPath mt n =
          ({ s with
              effects := s.effects ++
                [.mkdirAll (env.dir destPath), .writeFile destPath (writtenBytes env mt out)]
              totalSaved :=
                wrapInt64 (s.totalSaved + wrapInt64 (n - ((writtenBytes env mt out).length : Int)))
              logs := s.logs ++
                [.minified relPath mt n ((writtenBytes env mt out).length : Int)
                  (roundFloat (Float64.mul (Float64.div
                    (Float64.ofInt (wrapInt64 (n - ((writtenBytes env mt out).length : Int))))
                    (Float64.ofInt n)) (Float64.ofInt 100)) 2)]
              processedFiles := s.processedFiles + 1 }, .nil)) := by
  cases h1 : env.readFile srcPath with
  | error e => exact Or.inl ⟨e, by simp [minifyFile, h1], Or.inl (by simp [minifyFile, h1])⟩
  | ok input =>
    cases h2 : env.minifyBytes mt input with
    | error e =>
      exact Or.inl ⟨e, by simp [minifyFile, h1, h2], Or.inl (by simp [minifyFile, h1, h2])⟩
    | ok out =>
      cases h3 : env.mkdirAll (env.dir destPath) with
      | some e =>
        exact Or.inl ⟨e, by simp [minifyFile, h1, h2, h3], Or.inl (by simp [minifyFile, h1, h2, h3])⟩
      | none =>
        cases h4 : env.writeFile destPath (writtenBytes env mt out) with
        | some e =>
          refine Or.inl ⟨e, ?_, Or.inr ?_⟩ <;> simp only [minifyFile, h1, h2, h3, h4]
        | none =>
          refine Or.inr ⟨input, out, rfl, h2, rfl, h4, ?_⟩
          simp only [minifyFile, h1, h2, h3, h4, List.append_assoc, List.singleton_append]

/-- The copy branch either fails with an error before the destination is created, or
creates it, copies `copiedBytes` into it and returns nil, whatever `io.Copy` answered. -/
theorem copyFile_spec (env : Env) (s : BuildState) (srcPath relPath destPath ext : String) :
    (∃ e, (copyFile env s srcPath relPath destPath ext).2 = .err e ∧
        (copyFile env s srcPath relPath destPath ext).1.totalFiles = s.totalFiles ∧
        (copyFile env s srcPath relPath destPath ext).1.processedFiles = s.processedFiles ∧
        (copyFile env s srcPath relPath destPath ext).1.totalSaved = s.totalSaved ∧
        (copyFile env s srcPath relPath destPath ext).1.originalSize = s.originalSize ∧
        ((copyFile env s srcPath relPath destPath ext).1.effects = s.effects ∨
          (copyFile env s srcPath relPath destPath ext).1.effects =
            s.effects ++ [.mkdirAll (env.dir destPath)]) ∧
        ∃ extra, (copyFile env s srcPath relPath destPath ext).1.logs = s.logs ++ extra ∧
          ∀ r ∈ extra, ∃ msg path e, r = .closeError msg path e) ∨
    (∃ content, env.mkdirAll (env.dir destPath) = none ∧ env.openFile srcPath = .ok content ∧
        env.create destPath = none ∧
        (copyFile env s srcPath relPath destPath ext).2 = .nil ∧
        (copyFile env s srcPath relPath destPath ext).1.totalFiles = s.totalFiles ∧
        (copyFile env s srcPath relPath destPath ext).1.processedFiles = s.processedFiles ∧
        (copyFile env s srcPath relPath destPath ext).1.totalSaved = s.totalSaved ∧
        (copyFile env s srcPath relPath destPath ext).1.originalSize = s.originalSize ∧
        (copyFile env s srcPath relPath destPath ext).1.effects =
          s.effects ++ [.mkdirAll (env.dir destPath), .create destPath,
            .copy destPath (copiedBytes env srcPath destPath content)] ∧
        ∃ extra, (copyFile env s srcPath relPath destPath ext).1.logs =
            s.logs ++ .copied relPath (env.typeByExtension ext)
              ((copiedBytes env srcPath destPath content).length : Int) :: extra ∧
          ∀ r ∈ extra, ∃ msg path e, r = .closeError msg path e) := by
  cases h1 : env.mkdirAll (env.dir destPath) with
  | some e =>
    exact Or.inl ⟨e, by simp [copyFile, h1], by simp [copyFile, h1], by simp [copyFile, h1],
      by simp [copyFile, h1], by simp [copyFile, h1], Or.inl (by simp [copyFile, h1]),
      [], by simp [copyFile, h1], by simp⟩
  | none =>
    cases h2 : env.openFile srcPath with
    | error e =>
      exact Or.inl ⟨e, by simp [copyFile, h1, h2], by simp [copyFile, h1, h2],
        by simp [copyFile, h1, h2], by simp [copyFile, h1, h2], by simp [copyFile, h1, h2],
        Or.inr (by simp [copyFile, h1, h2]), [], by simp [copyFile, h1, h2], by simp⟩
    | ok content =>
      cases h3 : env.create destPath with
      | some e =>
        refine Or.inl ⟨e, by simp [copyFile, h1, h2, h3], by simp [copyFile, h1, h2, h3],
          by simp [copyFile, h1, h2, h3], by simp [copyFile, h1, h2, h3],
          by simp [copyFile, h1, h2, h3], Or.inr (by simp [copyFile, h1, h2, h3]), ?_⟩
        simp only [copyFile, h1, h2, h3, deferredClose]
        cases env.closeFile srcPath with
        | none => exact ⟨[], by simp, by simp⟩
        | some e2 =>
          exact ⟨[.closeError "Error closing source file" srcPath e2], by simp, by simp⟩
      | none =>
        refine Or.inr ⟨content, rfl, rfl, rfl, by simp [copyFile, h1, h2, h3],
          by simp [copyFile, h1, h2, h3], by simp [copyFile, h1, h2, h3],
          by simp [copyFile, h1, h2, h3], by simp [copyFile, h1, h2, h3],
          by simp [copyFile, h1, h2, h3], ?_⟩
        simp only [copyFile, h1, h2, h3, deferredClose]
        cases env.closeFile destPath with
        | none =>
          cases env.closeFile srcPath with
          | none => exact ⟨[], by simp, by simp⟩
          | some e2 =>
            exact ⟨[.closeError "Error closing source file" srcPath e2], by simp, by simp⟩
        | some e1 =>
          cases env.closeFile srcPath with
          | none =>
            exact ⟨[.closeError "Error closing destination file" destPath e1], by simp, by simp⟩
          | some e2 =>
            exact ⟨[.closeError "Error closing destination file" destPath e1,
              .closeError "Error closing source file" srcPath e2], by simp, by simp⟩

theorem walkFn_of_not_visible (env : Env) (srcDir distDir : String) (s : BuildState)
    (c : WalkCall) (h : c.isVisibleFile = false) :
    (walkFn env srcDir distDir s c.path c.d c.err).1 = s := by
  unfold WalkCall.isVisibleFile at h
  unfold walkFn
  cases he : c.err with
  | some e => simp
  | none =>
    cases hd : c.d with
    | none => simp
    | some d =>
      rw [he, hd] at h
      simp only [Bool.not_eq_false'] at h
      simp [h]

theorem walkFn_of_visible (env : Env) (srcDir distDir : String) (s : BuildState)
    (c : WalkCall) (h : c.isVisibleFile = true) :
    walkFn env srcDir distDir s c.path c.d c.err =
      match env.stat c.path with
      | none => (s, .panic)
      | some srcSize =>
        if isMinifiedPath c.path then
          minifyFile env
            { s with totalFiles := s.totalFiles + 1
                     originalSize := wrapInt64 (s.originalSize + srcSize) }
            c.path (env.rel srcDir c.path) (env.join distDir (env.rel srcDir c.path))
            (mediaTypeOf (strings_ToLower (filepath_Ext c.path))) srcSize
        else
          copyFile env
            { s with totalFiles := s.totalFiles + 1
                     originalSize := wrapInt64 (s.originalSize + srcSize) }
            c.path (env.rel srcDir c.path) (env.join distDir (env.rel srcDir c.path))
            (strings_ToLower (filepath_Ext c.path)) := by
  unfold WalkCall.isVisibleFile at h
  unfold walkFn
  cases he : c.err with
  | some e => rw [he] at h; simp at h
  | none =>
    cases hd : c.d with
    | none => rw [he, hd] at h; simp at h
    | some d =>
      rw [he, hd] at h
      simp only [Bool.not_eq_true'] at h
      simp only [h, Bool.false_eq_true, ↓reduceIte]
      cases env.stat c.path with
      | none => rfl
      | some n => simp only [isMinifiedPath, decide_eq_true_eq]

theorem minifyFile_ret (env : Env) (s s' : BuildState) (srcPath relPath destPath mt : String)
    (n : Int) :
    (minifyFile env s srcPath relPath destPath mt n).2 =
      (minifyFile env s' srcPath relPath destPath mt n).2 := by
  cases h1 : env.readFile srcPath with
  | error e => simp [minifyFile, h1]
  | ok input =>
    cases h2 : env.minifyBytes mt input with
    | error e => simp [minifyFile, h1, h2]
    | ok out =>
      cases h3 : env.mkdirAll (env.dir destPath) with
      | some e => simp [minifyFile, h1, h2, h3]
      | none =>
        cases h4 : env.writeFile destPath (writtenBytes env mt out) <;>
          simp [minifyFile, h1, h2, h3, h4]

theorem copyFile_ret (env : Env) (s s' : BuildState) (srcPath relPath destPath ext : String) :
    (copyFile env s srcPath relPath destPath ext).2 =
      (copyFile env s' srcPath relPath destPath ext).2 := by
  cases h1 : env.mkdirAll (env.dir destPath) with
  | some e => simp [copyFile, h1]
  | none =>
    cases h2 : env.openFile srcPath with
    | error e => simp [copyFile, h1, h2]
    | ok content =>
      cases h3 : env.create destPath <;> simp [copyFile, h1, h2, h3]

theorem walkFn_ret (env : Env) (srcDir distDir : String) (s : BuildState) (c : WalkCall) :
    (walkFn env srcDir distDir s c.path c.d c.err).2 = callRet env srcDir distDir c := by
  unfold callRet
  cases hv : c.isVisibleFile with
  | true =>
    rw [walkFn_of_visible env srcDir distDir s c hv,
      walkFn_of_visible env srcDir distDir BuildState.init c hv]
    cases env.stat c.path with
    | none => rfl
    | some n =>
      simp only
      split
      · exact minifyFile_ret ..
      · exact copyFile_ret ..
  | false =>
    unfold WalkCall.isVisibleFile at hv
    unfold walkFn
    cases he : c.err with
    | some e => simp
    | none =>
      cases hd : c.d with
      | none => simp
      | some d =>
        rw [he, hd] at hv
        simp only [Bool.not_eq_false'] at hv
        simp [hv]

theorem walkFn_noSkip (env : Env) (srcDir distDir : String) :
    NoSkip (walkFn env srcDir distDir) := by
  intro s p d e
  have key : ∀ c : WalkCall, (walkFn env srcDir distDir s c.path c.d c.err).2 ≠ .skipDir ∧
      (walkFn env srcDir distDir s c.path c.d c.err).2 ≠ .skipAll := by
    intro c
    cases hv : c.isVisibleFile with
    | true =>
      rw [walkFn_of_visible env srcDir distDir s c hv]
      cases env.stat c.path with
      | none => simp
      | some n =>
        simp only
        split
        · rcases minifyFile_spec env
            { s with totalFiles := s.totalFiles + 1
                     originalSize := wrapInt64 (s.originalSize + n) }
            c.path (env.rel srcDir c.path) (env.join distDir (env.rel srcDir c.path))
            (mediaTypeOf (strings_ToLower (filepath_Ext c.path))) n with ⟨e, h1, _⟩ | ⟨_, _, _, _, _, _, h1⟩
          · simp [h1]
          · simp [h1]
        · rcases copyFile_spec env
            { s with totalFiles := s.totalFiles + 1
                     originalSize := wrapInt64 (s.originalSize + n) }
            c.path (env.rel srcDir c.path) (env.join distDir (env.rel srcDir c.path))
            (strings_ToLower (filepath_Ext c.path)) with ⟨e, h1, _⟩ | ⟨_, _, _, _, h1, _⟩
          · simp [h1]
          · simp [h1]
    | false =>
      unfold WalkCall.isVisibleFile at hv
      unfold walkFn
      cases he : c.err with
      | some e => simp
      | none =>
        cases hd : c.d with
        | none => simp
        | some d =>
          rw [he, hd] at hv
          simp only [Bool.not_eq_false'] at hv
          simp [hv]
  exact key ⟨p, d, e⟩

theorem minifiedSaved_append (xs ys : List LogRecord) :
    minifiedSaved (xs ++ ys) = minifiedSaved xs + minifiedSaved ys := by
  simp [minifiedSaved]

theorem minifiedSaved_closeErrors (extra : List LogRecord)
    (h : ∀ r ∈ extra, ∃ msg path e, r = .closeError msg path e) : minifiedSaved extra = 0 := by
  induction extra with
  | nil => rfl
  | cons r rs ih =>
    obtain ⟨msg, path, e, hr⟩ := h r (by simp)
    have := ih (fun x hx => h x (by simp [hx]))
    simp only [minifiedSaved, List.map_cons, List.sum_cons] at this ⊢
    rw [this, hr]
    rfl

/-- The four things one call of the callback can do to the state: nothing (a directory,
a hidden entry, a reported error); a panic on a failed `os.Stat`; count the file and
stop with an error; count it and minify it; count it and copy it. -/
theorem walkFn_step (env : Env) (srcDir distDir : String) (s : BuildState) (c : WalkCall) :
    (c.isVisibleFile = false ∧ (walkFn env srcDir distDir s c.path c.d c.err).1 = s) ∨
    (c.isVisibleFile = true ∧ env.stat c.path = none ∧
      walkFn env srcDir distDir s c.path c.d c.err = (s, .panic)) ∨
    (∃ n, c.isVisibleFile = true ∧ env.stat c.path = some n ∧
      (walkFn env srcDir distDir s c.path c.d c.err).1.totalFiles = s.totalFiles + 1 ∧
      (walkFn env srcDir distDir s c.path c.d c.err).1.originalSize =
        wrapInt64 (s.originalSize + n) ∧
      ((∃ e, (walkFn env srcDir distDir s c.path c.d c.err).2 = .err e ∧
          (walkFn env srcDir distDir s c.path c.d c.err).1.processedFiles = s.processedFiles ∧
          (walkFn env srcDir distDir s c.path c.d c.err).1.totalSaved = s.totalSaved ∧
          outputPaths (walkFn env srcDir distDir s c.path c.d c.err).1.effects =
            outputPaths s.effects ∧
          minifiedSaved (walkFn env srcDir distDir s c.path c.d c.err).1.logs =
            minifiedSaved s.logs) ∨
       (isMinifiedPath c.path = true ∧
          (walkFn env srcDir distDir s c.path c.d c.err).2 = .nil ∧
          (walkFn env srcDir distDir s c.path c.d c.err).1.processedFiles =
            s.processedFiles + 1 ∧
          ∃ input out, env.readFile c.path = .ok input ∧
            env.minifyBytes (mediaTypeOf (strings_ToLower (filepath_Ext c.path))) input = .ok out ∧
            (walkFn env srcDir distDir s c.path c.d c.err).1.effects =
              s.effects ++ [.mkdirAll (env.dir (env.join distDir (env.rel srcDir c.path))),
                .writeFile (env.join distDir (env.rel srcDir c.path))
                  (writtenBytes env (mediaTypeOf (strings_ToLower (filepath_Ext c.path))) out)] ∧
            (walkFn env srcDir distDir s c.path c.d c.err).1.totalSaved =
              wrapInt64 (s.totalSaved + wrapInt64 (n -
                ((writtenBytes env (mediaTypeOf (strings_ToLower (filepath_Ext c.path)))
                  out).length : Int))) ∧
            minifiedSaved (walkFn env srcDir distDir s c.path c.d c.err).1.logs =
              minifiedSaved s.logs + (n -
                ((writtenBytes env (mediaTypeOf (strings_ToLower (filepath_Ext c.path)))
                  out).length : Int))) ∨
       (isMinifiedPath c.path = false ∧
          (walkFn env srcDir distDir s c.path c.d c.err).2 = .nil ∧
          (walkFn env srcDir distDir s c.path c.d c.err).1.processedFiles = s.processedFiles ∧
          (walkFn env srcDir distDir s c.path c.d c.err).1.totalSaved = s.totalSaved ∧
          minifiedSaved (walkFn env srcDir distDir s c.path c.d c.err).1.logs =
            minifiedSaved s.logs ∧
          ∃ content, env.openFile c.path = .ok content ∧
            (walkFn env srcDir distDir s c.path c.d c.err).1.effects =
              s.effects ++ [.mkdirAll (env.dir (env.join distDir (env.rel srcDir c.path))),
                .create (env.join distDir (env.rel srcDir c.path)),
                .copy (env.join distDir (env.rel srcDir c.path))
                  (copiedBytes env c.path (env.join distDir (env.rel srcDir c.path)) content)]))) := by
  cases hv : c.isVisibleFile with
  | false => exact Or.inl ⟨rfl, walkFn_of_not_visible env srcDir distDir s c hv⟩
  | true =>
    right
    rw [walkFn_of_visible env srcDir distDir s c hv]
    cases hs : env.stat c.path with
    | none => exact Or.inl ⟨rfl, rfl, rfl⟩
    | some n =>
      right
      refine ⟨n, rfl, rfl, ?_⟩
      simp only
      cases hm : isMinifiedPath c.path with
      | true =>
        simp only [↓reduceIte]
        rcases minifyFile_spec env
            { s with totalFiles := s.totalFiles + 1
                     originalSize := wrapInt64 (s.originalSize + n) }
            c.path (env.rel srcDir c.path) (env.join distDir (env.rel srcDir c.path))
            (mediaTypeOf (strings_ToLower (filepath_Ext c.path))) n with
          ⟨e, h1, h2 | h2⟩ | ⟨input, out, hr, hmin, _, _, h1⟩
        · exact ⟨by rw [h2], by rw [h2], Or.inl ⟨e, h1, by rw [h2], by rw [h2], by rw [h2],
            by rw [h2]⟩⟩
        · refine ⟨by rw [h2], by rw [h2], Or.inl ⟨e, h1, by rw [h2], by rw [h2], ?_,
            by rw [h2]⟩⟩
          rw [h2]
          simp [outputPaths]
        · rw [h1]
          refine ⟨rfl, rfl, Or.inr (Or.inl ⟨trivial, rfl, rfl, input, out, hr, hmin, rfl, rfl, ?_⟩)⟩
          simp [minifiedSaved, LogRecord.saved]
      | false =>
        simp only [Bool.false_eq_true, ↓reduceIte]
        rcases copyFile_spec env
            { s with totalFiles := s.totalFiles + 1
                     originalSize := wrapInt64 (s.originalSize + n) }
            c.path (env.rel srcDir c.path) (env.join distDir (env.rel srcDir c.path))
            (strings_ToLower (filepath_Ext c.path)) with
          ⟨e, h1, h2, h3, h4, h5, h6, extra, h7, h8⟩ |
          ⟨content, _, hopen, _, h1, h2, h3, h4, h5, h6, extra, h7, h8⟩
        · refine ⟨h2, h5, Or.inl ⟨e, h1, h3, h4, ?_, ?_⟩⟩
          · rcases h6 with h6 | h6
            · rw [h6]
            · rw [h6]
              simp [outputPaths]
          · rw [h7, minifiedSaved_append, minifiedSaved_closeErrors extra h8]
            simp
        · refine ⟨h2, h5, Or.inr (Or.inr ⟨trivial, h1, h3, h4, ?_, content, hopen, h6⟩)⟩
          rw [h7, minifiedSaved_append]
          have h0 : minifiedSaved (LogRecord.copied (env.rel srcDir c.path)
              (env.typeByExtension (strings_ToLower (filepath_Ext c.path)))
              ((copiedBytes env c.path (env.join distDir (env.rel srcDir c.path)) content).length : Int)
                :: extra) = minifiedSaved extra := by
            simp [minifiedSaved, LogRecord.saved]
          rw [h0, minifiedSaved_closeErrors extra h8]
          simp

/-! ## the whole walk, as a list of calls -/

theorem walkList_cons_nil (env : Env) (srcDir distDir : String) (c : WalkCall)
    (cs : List WalkCall) (s : BuildState) (h : callRet env srcDir distDir c = .nil) :
    walkList (walkFn env srcDir distDir) (c :: cs) s =
      walkList (walkFn env srcDir distDir) cs (walkFn env srcDir distDir s c.path c.d c.err).1 := by
  simp only [walkList, walkFn_ret, h]

theorem walkList_cons_stop (env : Env) (srcDir distDir : String) (c : WalkCall)
    (cs : List WalkCall) (s : BuildState) (h : callRet env srcDir distDir c ≠ .nil) :
    walkList (walkFn env srcDir distDir) (c :: cs) s =
      walkFn env srcDir distDir s c.path c.d c.err := by
  simp only [walkList, walkFn_ret]
  cases hr : callRet env srcDir distDir c <;> simp_all [Prod.ext_iff, walkFn_ret]

theorem walkList_invariant (env : Env) (srcDir distDir : String) (P : BuildState → Prop)
    (hstep : ∀ (s : BuildState) (c : WalkCall),
      P s → P (walkFn env srcDir distDir s c.path c.d c.err).1)
    (cs : List WalkCall) (s : BuildState) (hs : P s) :
    P (walkList (walkFn env srcDir distDir) cs s).1 := by
  induction cs generalizing s with
  | nil => exact hs
  | cons c cs ih =>
    by_cases h : callRet env srcDir distDir c = .nil
    · rw [walkList_cons_nil env srcDir distDir c cs s h]
      exact ih _ (hstep s c hs)
    · rw [walkList_cons_stop env srcDir distDir c cs s h]
      exact hstep s c hs

theorem reachedCalls_initial (env : Env) (srcDir distDir : String) (cs : List WalkCall) :
    reachedCalls env srcDir distDir cs <+: cs := by
  induction cs with
  | nil => exact List.prefix_refl _
  | cons c cs ih =>
    unfold reachedCalls
    split
    · exact (List.prefix_cons_inj c).2 ih
    · exact ⟨cs, rfl⟩

theorem reachedCalls_eq_self (env : Env) (srcDir distDir : String) (cs : List WalkCall)
    (h : ∀ c ∈ cs, callRet env srcDir distDir c = .nil) :
    reachedCalls env srcDir distDir cs = cs := by
  induction cs with
  | nil => rfl
  | cons c cs ih =>
    unfold reachedCalls
    rw [if_pos (h c (by simp)), ih (fun x hx => h x (by simp [hx]))]

/-- The size and the count one call adds. -/
theorem walkFn_counters (env : Env) (srcDir distDir : String) (s : BuildState) (c : WalkCall)
    (hs : wrapInt64 s.originalSize = s.originalSize) :
    (walkFn env srcDir distDir s c.path c.d c.err).1.originalSize =
        wrapInt64 (s.originalSize + (countedSize env c).getD 0) ∧
      (walkFn env srcDir distDir s c.path c.d c.err).1.totalFiles =
        s.totalFiles + (if (countedSize env c).isSome then 1 else 0) := by
  rcases walkFn_step env srcDir distDir s c with ⟨hv, h⟩ | ⟨hv, hst, h⟩ | ⟨n, hv, hst, h1, h2, _⟩
  · simp [countedSize, hv, h, hs]
  · simp [countedSize, hv, h, hst, hs]
  · simp [countedSize, hv, hst, h1, h2]

theorem walkList_originalSize (env : Env) (srcDir distDir : String) (cs : List WalkCall)
    (s : BuildState) (hs : wrapInt64 s.originalSize = s.originalSize) :
    (walkList (walkFn env srcDir distDir) cs s).1.originalSize =
      wrapInt64 (s.originalSize + countedBytes env srcDir distDir cs) := by
  induction cs generalizing s with
  | nil => simp [walkList, countedBytes, reachedCalls, hs]
  | cons c cs ih =>
    have hc := (walkFn_counters env srcDir distDir s c hs).1
    by_cases h : callRet env srcDir distDir c = .nil
    · rw [walkList_cons_nil env srcDir distDir c cs s h, ih _ (by rw [hc, wrapInt64_idem]), hc]
      simp only [countedBytes, reachedCalls, if_pos h, List.map_cons, List.sum_cons]
      rw [wrapInt64_add_left, add_assoc]
    · rw [walkList_cons_stop env srcDir distDir c cs s h, hc]
      simp [countedBytes, reachedCalls, if_neg h]

theorem walkList_totalFiles (env : Env) (srcDir distDir : String) (cs : List WalkCall)
    (s : BuildState) :
    (walkList (walkFn env srcDir distDir) cs s).1.totalFiles =
      s.totalFiles +
        ((reachedCalls env srcDir distDir cs).countP (fun c => (countedSize env c).isSome) : Nat) := by
  induction cs generalizing s with
  | nil => simp [walkList, reachedCalls]
  | cons c cs ih =>
    have hc : (walkFn env srcDir distDir s c.path c.d c.err).1.totalFiles =
        s.totalFiles + (if (countedSize env c).isSome then 1 else 0) := by
      rcases walkFn_step env srcDir distDir s c with ⟨hv, h⟩ | ⟨hv, hst, h⟩ | ⟨n, hv, hst, h1, _⟩
      · simp [countedSize, hv, h]
      · simp [countedSize, hv, h, hst]
      · simp [countedSize, hv, hst, h1]
    by_cases h : callRet env srcDir distDir c = .nil
    · rw [walkList_cons_nil env srcDir distDir c cs s h, ih, hc]
      simp only [reachedCalls, if_pos h, List.countP_cons]
      split
      · simp
        omega
      · simp
    · rw [walkList_cons_stop env srcDir distDir c cs s h, hc]
      simp only [reachedCalls, if_neg h, List.countP_cons, List.countP_nil]
      split <;> simp

theorem walkList_totalSaved (env : Env) (srcDir distDir : String) (cs : List WalkCall)
    (s : BuildState) (hs : s.totalSaved = wrapInt64 (minifiedSaved s.logs)) :
    (walkList (walkFn env srcDir distDir) cs s).1.totalSaved =
      wrapInt64 (minifiedSaved (walkList (walkFn env srcDir distDir) cs s).1.logs) := by
  apply walkList_invariant env srcDir distDir
    (fun s => s.totalSaved = wrapInt64 (minifiedSaved s.logs)) _ cs s hs
  intro s c hs
  rcases walkFn_step env srcDir distDir s c with ⟨_, h⟩ | ⟨_, _, h⟩ |
    ⟨n, _, _, _, _, ⟨e, _, _, h3, _, h5⟩ | ⟨_, _, _, input, out, _, _, _, h3, h5⟩ |
      ⟨_, _, _, h3, h5, _⟩⟩
  · rw [h]; exact hs
  · rw [h]; exact hs
  · rw [h3, h5]; exact hs
  · rw [h3, h5, hs, wrapInt64_add_left, wrapInt64_add_right]
  · rw [h3, h5]; exact hs

theorem callRet_of_not_visible (env : Env) (srcDir distDir : String) (c : WalkCall)
    (hv : c.isVisibleFile = false) (he : c.err = none) (hd : c.d.isSome) :
    callRet env srcDir distDir c = .nil := by
  unfold WalkCall.isVisibleFile at hv
  unfold callRet walkFn
  cases hd' : c.d with
  | none => rw [hd'] at hd; simp at hd
  | some d =>
    rw [he, hd'] at hv
    simp only [Bool.not_eq_false'] at hv
    simp [he, hv]

theorem callRet_of_allSucceed (env : Env) (srcDir distDir : String) (h : AllSucceed env)
    (c : WalkCall) (he : c.err = none) (hd : c.d.isSome) :
    callRet env srcDir distDir c = .nil := by
  cases hv : c.isVisibleFile with
  | false => exact callRet_of_not_visible env srcDir distDir c hv he hd
  | true =>
    unfold callRet
    rw [walkFn_of_visible env srcDir distDir _ c hv]
    obtain ⟨n, hn⟩ := h.stat c.path
    rw [hn]
    simp only
    split
    · obtain ⟨b, hb⟩ := h.readFile c.path
      obtain ⟨o, ho⟩ := h.minifyBytes (mediaTypeOf (strings_ToLower (filepath_Ext c.path))) b
      simp [minifyFile, hb, ho, h.mkdirAll, h.writeFile]
    · obtain ⟨b, hb⟩ := h.openFile c.path
      simp [copyFile, hb, h.mkdirAll, h.create]

/-- What one call adds to the written files and to the processed counter. -/
theorem walkFn_outputs (env : Env) (srcDir distDir : String) (s : BuildState) (c : WalkCall) :
    outputPaths (walkFn env srcDir distDir s c.path c.d c.err).1.effects =
        outputPaths s.effects ++
          (if callRet env srcDir distDir c = .nil ∧ c.isVisibleFile = true then
            [destOf env srcDir distDir c.path] else []) ∧
      (walkFn env srcDir distDir s c.path c.d c.err).1.processedFiles =
        s.processedFiles +
          (if callRet env srcDir distDir c = .nil ∧ c.isVisibleFile = true ∧
            isMinifiedPath c.path = true then 1 else 0) := by
  have hret := walkFn_ret env srcDir distDir s c
  rcases walkFn_step env srcDir distDir s c with ⟨hv, h⟩ | ⟨hv, hst, h⟩ |
    ⟨n, hv, _, _, _, ⟨e, h1, h2, _, h4, _⟩ | ⟨hm, h1, h2, input, out, _, _, h4, _⟩ |
      ⟨hm, h1, h2, _, _, content, _, h4⟩⟩
  · simp [h, hv]
  · rw [h] at hret
    simp [h, ← hret]
  · rw [h1] at hret
    simp [h2, h4, ← hret]
  · rw [h1] at hret
    simp [h2, h4, ← hret, hv, hm, outputPaths, destOf]
  · rw [h1] at hret
    simp [h2, h4, ← hret, hv, hm, outputPaths, destOf]

theorem walkList_outputs (env : Env) (srcDir distDir : String) (cs : List WalkCall)
    (s : BuildState) :
    outputPaths (walkList (walkFn env srcDir distDir) cs s).1.effects =
      outputPaths s.effects ++
        (((okCalls env srcDir distDir cs).filter WalkCall.isVisibleFile).map
          (fun c => destOf env srcDir distDir c.path)) := by
  induction cs generalizing s with
  | nil => simp [walkList, okCalls]
  | cons c cs ih =>
    have hc := (walkFn_outputs env srcDir distDir s c).1
    by_cases h : callRet env srcDir distDir c = .nil
    · rw [walkList_cons_nil env srcDir distDir c cs s h, ih, hc]
      simp only [okCalls, List.takeWhile_cons, h, decide_True, ↓reduceIte, true_and]
      cases hv : c.isVisibleFile <;> simp [List.filter_cons, hv]
    · rw [walkList_cons_stop env srcDir distDir c cs s h, hc]
      simp [okCalls, List.takeWhile_cons, h]

theorem walkList_processedFiles (env : Env) (srcDir distDir : String) (cs : List WalkCall)
    (s : BuildState) :
    (walkList (walkFn env srcDir distDir) cs s).1.processedFiles =
      s.processedFiles +
        (((okCalls env srcDir distDir cs).countP
          (fun c => c.isVisibleFile && isMinifiedPath c.path) : Nat) : Int) := by
  induction cs generalizing s with
  | nil => simp [walkList, okCalls]
  | cons c cs ih =>
    have hc := (walkFn_outputs env srcDir distDir s c).2
    by_cases h : callRet env srcDir distDir c = .nil
    · rw [walkList_cons_nil env srcDir distDir c cs s h, ih, hc]
      simp only [okCalls, List.takeWhile_cons, h, decide_True, ↓reduceIte, true_and,
        List.countP_cons, Bool.and_eq_true]
      split
      · simp
        omega
      · simp
    · rw [walkList_cons_stop env srcDir distDir c cs s h, hc]
      simp [okCalls, List.takeWhile_cons, h]

theorem okCalls_eq_self (env : Env) (srcDir distDir : String) (cs : List WalkCall)
    (h : ∀ c ∈ cs, callRet env srcDir distDir c = .nil) :
    okCalls env srcDir distDir cs = cs := by
  unfold okCalls
  rw [List.takeWhile_eq_self_iff]
  intro c hc
  simp [h c hc]

mutual
theorem calls_files_node (join : String → String → String) :
    ∀ (n : FsNode) (path : String), (n.calls join path).filterMap fileOfCall = n.files join path
  | .file name, path => by simp [FsNode.calls, FsNode.files, fileOfCall]
  | .dir name readErr entries, path => by
      have ih := calls_files_list join entries path
      cases readErr <;> simp [FsNode.calls, FsNode.files, fileOfCall, List.filterMap_cons, ih]
theorem calls_files_list (join : String → String → String) :
    ∀ (l : FsList) (path : String), (l.calls join path).filterMap fileOfCall = l.files join path
  | .nil, path => by simp [FsList.calls, FsList.files]
  | .cons d1 rest, path => by
      have ih1 := calls_files_node join d1 (join path d1.entry.name)
      have ih2 := calls_files_list join rest path
      simp [FsList.calls, FsList.files, List.filterMap_append, ih1, ih2]
end

mutual
theorem calls_wellFormed_node (join : String → String → String) :
    ∀ (n : FsNode) (path : String), n.readable = true →
      ∀ c ∈ n.calls join path, c.err = none ∧ c.d.isSome
  | .file name, path, _ => by simp [FsNode.calls]
  | .dir name readErr entries, path, hr => by
      have ih := calls_wellFormed_list join entries path
      simp only [FsNode.readable, Bool.and_eq_true, Option.isNone_iff_eq_none] at hr
      obtain ⟨h1, h2⟩ := hr
      subst h1
      intro c hc
      simp only [FsNode.calls, List.nil_append, List.mem_cons] at hc
      rcases hc with hc | hc
      · subst hc; simp
      · exact ih h2 c hc
theorem calls_wellFormed_list (join : String → String → String) :
    ∀ (l : FsList) (path : String), l.readable = true →
      ∀ c ∈ l.calls join path, c.err = none ∧ c.d.isSome
  | .nil, path, _ => by simp [FsList.calls]
  | .cons d1 rest, path, hr => by
      have ih1 := calls_wellFormed_node join d1 (join path d1.entry.name)
      have ih2 := calls_wellFormed_list join rest path
      simp only [FsList.readable, Bool.and_eq_true] at hr
      intro c hc
      simp only [FsList.calls, List.mem_append] at hc
      rcases hc with hc | hc
      · exact ih1 hr.1 c hc
      · exact ih2 hr.2 c hc
end

/-- The visible-file calls of a list are the visible files among the files it is about. -/
theorem visible_calls_eq (f : String → String) (cs : List WalkCall) :
    (cs.filter WalkCall.isVisibleFile).map (fun c => f c.path) =
      ((cs.filterMap fileOfCall).filter visibleName).map (fun x => f x.1) := by
  induction cs with
  | nil => rfl
  | cons c cs ih =>
    rcases c with ⟨path, d, err⟩
    cases err with
    | some e => simpa [List.filter_cons, WalkCall.isVisibleFile, fileOfCall] using ih
    | none =>
      cases d with
      | none => simpa [List.filter_cons, WalkCall.isVisibleFile, fileOfCall] using ih
      | some d =>
        cases hdir : d.isDir with
        | true => simpa [List.filter_cons, WalkCall.isVisibleFile, fileOfCall, hdir] using ih
        | false =>
          cases hh : strings_HasPrefix d.name "." <;>
            simpa [List.filter_cons, WalkCall.isVisibleFile, fileOfCall, hdir, hh,
              visibleName] using ih

/-! ## `build` as a whole -/

theorem build_of_mkdirAll_failed (env : Env) (srcDir distDir : String)
    (lstat : Except OsError FsNode) (e : OsError) (h : env.mkdirAll distDir = some e) :
    build env srcDir distDir lstat =
      { outcome := .returned (some e), state := BuildState.init, summary := none } := by
  simp [build, h]

theorem walked_eq (env : Env) (srcDir distDir : String) (lstat : Except OsError FsNode) :
    filepath_WalkDir env.join (walkFn env srcDir distDir) srcDir lstat
      { BuildState.init with effects := [.mkdirAll distDir] } = walked env srcDir distDir lstat :=
  filepath_WalkDir_eq_walkList env.join _ (walkFn_noSkip env srcDir distDir) srcDir lstat _

/-- A run of `build` that got past the creation of the destination root, in terms of
the walk: a panic leaves the state of the walk, anything else logs the summary. -/
theorem build_of_mkdirAll_ok (env : Env) (srcDir distDir : String)
    (lstat : Except OsError FsNode) (h : env.mkdirAll distDir = none) :
    ((walked env srcDir distDir lstat).2 = .panic ∧
      build env srcDir distDir lstat =
        { outcome := .panicked, state := (walked env srcDir distDir lstat).1, summary := none }) ∨
    ((walked env srcDir distDir lstat).2 ≠ .panic ∧
      (build env srcDir distDir lstat).outcome =
        .returned (match (walked env srcDir distDir lstat).2 with
          | .err e => some e
          | _ => none) ∧
      (build env srcDir distDir lstat).summary =
        some ⟨(walked env srcDir distDir lstat).1.totalFiles,
          (walked env srcDir distDir lstat).1.processedFiles,
          totalReduction (walked env srcDir distDir lstat).1.totalSaved
            (walked env srcDir distDir lstat).1.originalSize⟩ ∧
      (build env srcDir distDir lstat).state =
        { (walked env srcDir distDir lstat).1 with
          logs := (walked env srcDir distDir lstat).1.logs ++
            [.buildSummary (walked env srcDir distDir lstat).1.totalFiles
              (walked env srcDir distDir lstat).1.processedFiles
              (totalReduction (walked env srcDir distDir lstat).1.totalSaved
                (walked env srcDir distDir lstat).1.originalSize)] }) := by
  unfold build
  simp only [h, walked_eq]
  cases hr : (walked env srcDir distDir lstat).2 <;> simp

theorem build_state_counters (env : Env) (srcDir distDir : String)
    (lstat : Except OsError FsNode) (h : env.mkdirAll distDir = none) :
    (build env srcDir distDir lstat).state.totalFiles =
        (walked env srcDir distDir lstat).1.totalFiles ∧
      (build env srcDir distDir lstat).state.processedFiles =
        (walked env srcDir distDir lstat).1.processedFiles ∧
      (build env srcDir distDir lstat).state.totalSaved =
        (walked env srcDir distDir lstat).1.totalSaved ∧
      (build env srcDir distDir lstat).state.originalSize =
        (walked env srcDir distDir lstat).1.originalSize ∧
      (build env srcDir distDir lstat).state.effects =
        (walked env srcDir distDir lstat).1.effects ∧
      minifiedSaved (build env srcDir distDir lstat).state.logs =
        minifiedSaved (walked env srcDir distDir lstat).1.logs := by
  rcases build_of_mkdirAll_ok env srcDir distDir lstat h with ⟨_, hb⟩ | ⟨_, _, _, hb⟩
  · rw [hb]; simp
  · rw [hb]; simp [minifiedSaved, LogRecord.saved]

theorem walkList_ret_nil (env : Env) (srcDir distDir : String) (cs : List WalkCall)
    (s : BuildState) (h : ∀ c ∈ cs, callRet env srcDir distDir c = .nil) :
    (walkList (walkFn env srcDir distDir) cs s).2 = .nil := by
  induction cs generalizing s with
  | nil => rfl
  | cons c cs ih =>
    rw [walkList_cons_nil env srcDir distDir c cs s (h c (by simp))]
    exact ih _ (fun x hx => h x (by simp [hx]))

theorem calls_nil_of_allSucceed (env : Env) (srcDir distDir : String) (h : AllSucceed env)
    (tree : FsNode) (hr : tree.readable = true) :
    ∀ c ∈ rootCalls env.join srcDir (.ok tree), callRet env srcDir distDir c = .nil := by
  intro c hc
  obtain ⟨h1, h2⟩ := calls_wellFormed_node env.join tree srcDir hr c hc
  exact callRet_of_allSucceed env srcDir distDir h c h1 h2

/-! ## supporting lemmas for the claims -/

theorem demoEnv_allSucceed : AllSucceed demoEnv where
  mkdirAll _ := rfl
  stat _ := ⟨5, rfl⟩
  readFile _ := ⟨demoContent, rfl⟩
  minifyBytes _ b := ⟨b.filter (· ≠ 32), rfl⟩
  writeFile _ _ := rfl
  openFile _ := ⟨demoContent, rfl⟩
  create _ := rfl
  copy _ _ := rfl

theorem visible_count_eq (p : String → Bool) (cs : List WalkCall) :
    cs.countP (fun c => c.isVisibleFile && p c.path) =
      ((cs.filterMap fileOfCall).filter (fun f => visibleName f && p f.1)).length := by
  induction cs with
  | nil => rfl
  | cons c cs ih =>
    rcases c with ⟨path, d, err⟩
    cases err with
    | some e => simpa [List.countP_cons, WalkCall.isVisibleFile, fileOfCall] using ih
    | none =>
      cases d with
      | none => simpa [List.countP_cons, WalkCall.isVisibleFile, fileOfCall] using ih
      | some d =>
        cases hdir : d.isDir with
        | true => simpa [List.countP_cons, WalkCall.isVisibleFile, fileOfCall, hdir] using ih
        | false =>
          cases hh : strings_HasPrefix d.name "." with
          | true =>
            simpa [List.countP_cons, WalkCall.isVisibleFile, fileOfCall, hdir, hh,
              visibleName] using ih
          | false =>
            cases hp : p path <;>
              simpa [List.countP_cons, WalkCall.isVisibleFile, fileOfCall, hdir, hh,
                visibleName, List.filter_cons, hp] using ih

theorem counted_iff_visible_of_allSucceed (env : Env) (h : AllSucceed env) (c : WalkCall) :
    (countedSize env c).isSome = c.isVisibleFile := by
  unfold countedSize
  cases hv : c.isVisibleFile with
  | false => simp
  | true =>
    obtain ⟨n, hn⟩ := h.stat c.path
    simp [hn]

theorem okCalls_initial (env : Env) (srcDir distDir : String) (cs : List WalkCall) :
    okCalls env srcDir distDir cs <+: cs :=
  List.takeWhile_prefix _

theorem counted_imp_visible (env : Env) (c : WalkCall)
    (h : (countedSize env c).isSome = true) : c.isVisibleFile = true := by
  unfold countedSize at h
  cases hv : c.isVisibleFile with
  | true => rfl
  | false => simp [hv] at h

theorem effects_mono_step (env : Env) (srcDir distDir : String) (s : BuildState) (c : WalkCall)
    (x : FsEffect) (hx : x ∈ s.effects) :
    x ∈ (walkFn env srcDir distDir s c.path c.d c.err).1.effects := by
  rcases walkFn_step env srcDir distDir s c with ⟨_, h⟩ | ⟨_, _, h⟩ | ⟨n, hv, hst, _, _, h⟩
  · rw [h]; exact hx
  · rw [h]; exact hx
  · rw [walkFn_of_visible env srcDir distDir s c hv, hst]
    simp only
    split
    · rcases minifyFile_spec env
          { s with totalFiles := s.totalFiles + 1
                   originalSize := wrapInt64 (s.originalSize + n) }
          c.path (env.rel srcDir c.path) (env.join distDir (env.rel srcDir c.path))
          (mediaTypeOf (strings_ToLower (filepath_Ext c.path))) n with
        ⟨e, _, h2 | h2⟩ | ⟨input, out, _, _, _, _, h1⟩
      · rw [h2]; exact hx
      · rw [h2]; simp [hx]
      · rw [h1]; simp [hx]
    · rcases copyFile_spec env
          { s with totalFiles := s.totalFiles + 1
                   originalSize := wrapInt64 (s.originalSize + n) }
          c.path (env.rel srcDir c.path) (env.join distDir (env.rel srcDir c.path))
          (strings_ToLower (filepath_Ext c.path)) with
        ⟨e, _, _, _, _, _, h6, _⟩ | ⟨content, _, _, _, _, _, _, _, _, h6, _⟩
      · rcases h6 with h6 | h6 <;> rw [h6] <;> simp [hx]
      · rw [h6]; simp [hx]

theorem effects_mono_walk (env : Env) (srcDir distDir : String) (cs : List WalkCall)
    (s : BuildState) (x : FsEffect) (hx : x ∈ s.effects) :
    x ∈ (walkList (walkFn env srcDir distDir) cs s).1.effects :=
  walkList_invariant env srcDir distDir (fun s => x ∈ s.effects)
    (fun s c h => effects_mono_step env srcDir distDir s c x h) cs s hx

theorem walkList_append_nil (env : Env) (srcDir distDir : String) (pre rest : List WalkCall)
    (s : BuildState) (h : ∀ c ∈ pre, callRet env srcDir distDir c = .nil) :
    walkList (walkFn env srcDir distDir) (pre ++ rest) s =
      walkList (walkFn env srcDir distDir) rest
        (walkList (walkFn env srcDir distDir) pre s).1 := by
  rw [walkList_append, if_pos (walkList_ret_nil env srcDir distDir pre s h)]

/-- The steps whose error the callback does return: when the first call not answered
with nil is answered with an error, `build` returns that error and has written
nothing for the calls after it. -/
theorem build_returns_first_error (env : Env) (srcDir distDir : String)
    (lstat : Except OsError FsNode) (pre post : List WalkCall) (c : WalkCall) (e : OsError)
    (hcalls : rootCalls env.join srcDir lstat = pre ++ c :: post)
    (hpre : ∀ x ∈ pre, callRet env srcDir distDir x = .nil)
    (hroot : env.mkdirAll distDir = none)
    (hc : callRet env srcDir distDir c = .err e) :
    (build env srcDir distDir lstat).outcome = .returned (some e) ∧
      outputPaths (build env srcDir distDir lstat).state.effects =
        (pre.filter WalkCall.isVisibleFile).map (fun x => destOf env srcDir distDir x.path) := by
  have hne : callRet env srcDir distDir c ≠ .nil := by rw [hc]; simp
  have hw : walked env srcDir distDir lstat =
      walkFn env srcDir distDir
        (walkList (walkFn env srcDir distDir) pre
          { BuildState.init with effects := [.mkdirAll distDir] }).1 c.path c.d c.err := by
    unfold walked
    rw [hcalls, walkList_append_nil env srcDir distDir pre _ _ hpre,
      walkList_cons_stop env srcDir distDir c post _ hne]
  have hret : (walked env srcDir distDir lstat).2 = .err e := by
    rw [hw, walkFn_ret, hc]
  obtain ⟨_, _, _, _, h5, _⟩ := build_state_counters env srcDir distDir lstat hroot
  rcases build_of_mkdirAll_ok env srcDir distDir lstat hroot with ⟨hp, _⟩ | ⟨_, hout, _, _⟩
  · rw [hret] at hp; cases hp
  · refine ⟨by rw [hout, hret], ?_⟩
    rw [h5, hw, (walkFn_outputs env srcDir distDir _ c).1, if_neg (by simp [hc]),
      walkList_outputs, okCalls_eq_self env srcDir distDir pre hpre]
    simp [outputPaths]

/-! ## the broadcast loop -/

theorem syncMap_Range_sendReload (writeErr : webSocketClient → Option OsError) :
    ∀ (ks pre : List webSocketClient) (s : HubState), s.clients = pre ++ ks → (pre ++ ks).Nodup →
      (syncMap_Range (sendReload writeErr) ks s).clients =
          pre ++ ks.filter (fun c => (writeErr c).isNone) ∧
        (syncMap_Range (sendReload writeErr) ks s).writes =
          s.writes ++ ks.map (fun c => ⟨c, webSocketMessageReload, (writeErr c).isNone⟩) ∧
        (syncMap_Range (sendReload writeErr) ks s).serving = s.serving ∧
        (syncMap_Range (sendReload writeErr) ks s).closed = s.closed := by
  intro ks
  induction ks with
  | nil => intro pre s h _; simp [syncMap_Range, h]
  | cons k ks ih =>
    intro pre s h hnd
    have hk : k ∈ s.clients := by rw [h]; simp
    have hkpre : k ∉ pre := by
      intro hmem
      have := (List.nodup_append.1 hnd).2.2
      exact this hmem (by simp)
    simp only [syncMap_Range, hk, ↓reduceIte]
    cases hw : writeErr k with
    | none =>
      have hs : sendReload writeErr s k =
          ({ s with writes := s.writes ++ [⟨k, webSocketMessageReload, true⟩] }, true) := by
        simp [sendReload, hw]
      rw [hs]
      simp only [↓reduceIte]
      have := ih (pre ++ [k])
        { s with writes := s.writes ++ [⟨k, webSocketMessageReload, true⟩] }
        (by simp [h]) (by simpa using hnd)
      simp only [List.append_assoc, List.singleton_append] at this
      simp [this, List.filter_cons, hw]
    | some e =>
      have hs : sendReload writeErr s k =
          ({ s with writes := s.writes ++ [⟨k, webSocketMessageReload, false⟩],
                    warnings := s.warnings + 1, clients := pre ++ ks }, true) := by
        simp only [sendReload, hw, Option.isNone_some, h]
        rw [List.erase_append_right _ hkpre, List.erase_cons_head]
      rw [hs]
      simp only [↓reduceIte]
      have hnd' : (pre ++ ks).Nodup := by
        have := List.nodup_append.1 hnd
        exact List.nodup_append.2 ⟨this.1, (List.nodup_cons.1 this.2.1).2,
          fun a ha hb => this.2.2 ha (List.mem_cons_of_mem _ hb)⟩
      have := ih pre
        { s with writes := s.writes ++ [⟨k, webSocketMessageReload, false⟩],
                 warnings := s.warnings + 1, clients := pre ++ ks } rfl hnd'
      simp [this, List.filter_cons, hw]

/-- A broadcast closes no connection and ends no handler loop, whichever writes fail. -/
theorem reload_keeps_handlers (s : HubState) (receiver : webSocketClient)
    (writeErr : webSocketClient → Option OsError) (hset : s.clients.Nodup) :
    (wsHandler s (.reload receiver writeErr)).closed = s.closed ∧
      (wsHandler s (.reload receiver writeErr)).serving = s.serving := by
  have h := syncMap_Range_sendReload writeErr s.clients [] s rfl (by simpa using hset)
  simp only [wsHandler, broadcast]
  split
  · exact ⟨h.2.2.2, h.2.2.1⟩
  · exact ⟨rfl, rfl⟩

/-! ## `float64` at a zero divisor -/

theorem bitLenAux_zero (fuel : Nat) : bitLenAux fuel 0 = 0 := by
  cases fuel <;> simp [bitLenAux]

theorem two_pow_bitLenAux_le (fuel n : Nat) (hn : 1 ≤ n) (hf : n ≤ fuel) :
    2 ^ bitLenAux fuel n ≤ 2 * n := by
  induction fuel generalizing n with
  | zero => omega
  | succ fuel ih =>
    have hne : n ≠ 0 := by omega
    simp only [bitLenAux, hne, ↓reduceIte]
    by_cases h2 : n / 2 = 0
    · rw [h2, bitLenAux_zero]
      omega
    · have := ih (n / 2) (by omega) (by omega)
      rw [pow_succ]
      omega

theorem quantum_le (a : Nat) (ha : 1 ≤ a) : 2 ^ (bitLen a - 53) ≤ a := by
  have h1 : 2 ^ bitLen a ≤ 2 * a := two_pow_bitLenAux_le a a ha (le_refl a)
  have h2 : 2 ^ (bitLen a - 53) ≤ 2 ^ (bitLen a - 1) :=
    Nat.pow_le_pow_right (by decide) (by omega)
  by_cases h0 : bitLen a = 0
  · rw [h0]
    simpa using ha
  · have h3 : 2 ^ bitLen a = 2 ^ (bitLen a - 1) * 2 := by
      rw [← pow_succ]
      congr 1
      omega
    omega

theorem le_roundHalfEven (a d : Nat) : a / d ≤ roundHalfEven a d := by
  unfold roundHalfEven
  simp only
  split
  · exact le_refl _
  · split
    · omega
    · split <;> omega

/-- The conversion of a non-zero integer is not a zero. -/
theorem ofInt_ne_zero (i : Int) (hi : i ≠ 0) :
    Float64.ofInt i = .inf (decide (i < 0)) ∨
      ∃ k, k ≠ 0 ∧ Float64.ofInt i = .fin (decide (i < 0)) k := by
  unfold Float64.ofInt Float64.ofRat
  simp only [Nat.div_one, one_mul]
  have hU : 0 < unitsPerOne := pow_pos (by decide) 1074
  have ha : 1 ≤ i.natAbs * unitsPerOne :=
    Nat.one_le_iff_ne_zero.2 (Nat.mul_ne_zero (Int.natAbs_ne_zero.2 hi) (by omega))
  have hq := quantum_le _ ha
  have hpos : 0 < 2 ^ (bitLen (i.natAbs * unitsPerOne) - 53) := Nat.two_pow_pos _
  have hdiv : 1 ≤ i.natAbs * unitsPerOne / 2 ^ (bitLen (i.natAbs * unitsPerOne) - 53) :=
    (Nat.one_le_div_iff hpos).2 hq
  have hr := le_roundHalfEven (i.natAbs * unitsPerOne)
    (2 ^ (bitLen (i.natAbs * unitsPerOne) - 53))
  split
  · exact Or.inl rfl
  · refine Or.inr ⟨_, ?_, rfl⟩
    exact Nat.mul_ne_zero (by omega) (by omega)

set_option exponentiation.threshold 4000 in
set_option maxRecDepth 100000 in
theorem ofInt_zero : Float64.ofInt 0 = .fin false 0 := by
  decide

set_option exponentiation.threshold 4000 in
set_option maxRecDepth 100000 in
theorem ofInt_hundred : Float64.ofInt 100 = .fin false (100 * unitsPerOne) := by
  decide

/-- Line 167 with a zero original size: the division yields NaN when nothing was saved
and an infinity otherwise, and the rounding keeps both. -/
theorem totalReduction_zero_divisor (totalSaved : Int) :
    totalReduction totalSaved 0 =
      if totalSaved = 0 then .nan else .inf (decide (totalSaved < 0)) := by
  have hU : unitsPerOne ≠ 0 := pow_ne_zero 1074 (by decide)
  have h100 : (100 * unitsPerOne) ≠ 0 := Nat.mul_ne_zero (by decide) hU
  have hratio : math_Pow10 2 = .fin false (100 * unitsPerOne) := ofInt_hundred
  unfold totalReduction roundFloat
  rw [ofInt_zero, ofInt_hundred, hratio]
  by_cases h0 : totalSaved = 0
  · subst h0
    rw [ofInt_zero]
    simp [Float64.div, Float64.mul, math_Round]
  · rw [if_neg h0]
    rcases ofInt_ne_zero totalSaved h0 with h | ⟨k, hk, h⟩
    · rw [h]
      simp [Float64.div, Float64.mul, math_Round, h100]
    · rw [h]
      simp [Float64.div, Float64.mul, math_Round, h100, hk]

/-! ## the claims -/

/-- The test of line 100 compares a media type with the extension `.html`, which no
media type equals: the bytes written are always the minifier output as it is. -/
theorem writtenBytes_mediaTypeOf (env : Env) (ext : String) (out : Bytes) :
    writtenBytes env (mediaTypeOf ext) out = out := by
  have h : mediaTypeOf ext ≠ fileExtHTML := by
    unfold mediaTypeOf
    split
    · decide
    · split
      · decide
      · split <;> decide
  simp [writtenBytes, h]

/-- C1 (code defect). On the sample site, `build` writes for `index.html` exactly the
minifier output `abc`: no newline and no timestamp comment follow it, although the
claim says the written bytes are that output, a newline and the comment of
`generateTimestampHTMLComment`. -/
theorem html_written_without_timestamp :
    (build demoEnv "src" "dist" (.ok siteTree)).state.effects.filterMap
        (fun
          | .writeFile path data => if path = "dist/index.html" then some data else none
          | _ => none) = [[97, 98, 99]] ∧
      demoEnv.minifyBytes mimeTypeHTML demoContent = .ok [97, 98, 99] ∧
      ([97, 98, 99] : Bytes) ≠
        [97, 98, 99] ++ stringBytes newline ++
          stringBytes (generateTimestampHTMLComment demoEnv.now) := by
  refine ⟨by decide, rfl, by decide⟩

/-- C2 (as amended). Whenever `build` logs its summary, the aggregate reduction is the
rounding of line 167 applied to two `int64` sums: the numerator sums source size less
minified size over exactly the files that were minified (their `[Minified]` records,
negative savings included as they are), while the denominator sums the sizes reported
by `os.Stat` over every file the walk called back on that is not hidden, so the
copied files and a file whose processing failed are part of it. -/
theorem aggregate_reduction_sums (env : Env) (srcDir distDir : String)
    (lstat : Except OsError FsNode) (sm : Summary)
    (h : (build env srcDir distDir lstat).summary = some sm) :
    sm.totalMinifiedReduction =
      totalReduction
        (wrapInt64 (minifiedSaved (build env srcDir distDir lstat).state.logs))
        (wrapInt64 (countedBytes env srcDir distDir (rootCalls env.join srcDir lstat))) := by
  cases hmk : env.mkdirAll distDir with
  | some e =>
    rw [build_of_mkdirAll_failed env srcDir distDir lstat e hmk] at h
    cases h
  | none =>
    obtain ⟨_, _, _, _, _, h6⟩ := build_state_counters env srcDir distDir lstat hmk
    rcases build_of_mkdirAll_ok env srcDir distDir lstat hmk with ⟨_, hb⟩ | ⟨_, _, hsum, _⟩
    · rw [hb] at h
      cases h
    · rw [hsum] at h
      cases h
      simp only
      rw [h6]
      unfold walked
      rw [← walkList_totalSaved env srcDir distDir _ _
          (by simp [BuildState.init, minifiedSaved, wrapInt64]),
        walkList_originalSize env srcDir distDir _ _ (by simp [BuildState.init, wrapInt64])]
      simp [BuildState.init]

set_option exponentiation.threshold 4000 in
set_option maxRecDepth 100000 in
/-- C2 (as amended), on the site of the scenario: `index.html` and `style.css` save two
bytes each, and the five bytes of the copied `logo.png` are part of the denominator. -/
theorem aggregate_reduction_sums_witness :
    (build demoEnv "src" "dist" (.ok siteTree)).summary = some ⟨3, 2, totalReduction 4 15⟩ ∧
      minifiedSaved (build demoEnv "src" "dist" (.ok siteTree)).state.logs = 4 ∧
      countedBytes demoEnv "src" "dist" (rootCalls demoEnv.join "src" (.ok siteTree)) = 15 ∧
      (⟨3, 2, totalReduction 4 15⟩ : Summary).totalMinifiedReduction =
        totalReduction
          (wrapInt64 (minifiedSaved (build demoEnv "src" "dist" (.ok siteTree)).state.logs))
          (wrapInt64 (countedBytes demoEnv "src" "dist"
            (rootCalls demoEnv.join "src" (.ok siteTree)))) :=
  ⟨by decide, by decide, by decide,
    aggregate_reduction_sums demoEnv "src" "dist" (.ok siteTree) ⟨3, 2, totalReduction 4 15⟩
      (by decide)⟩

set_option exponentiation.threshold 4000 in
set_option maxRecDepth 100000 in
/-- C2 (counterexample). On the site of the scenario the denominator `build` divides by
is 15 bytes, the 10 bytes of the two minified files and the 5 bytes of the copied
`logo.png`; the reported aggregate is not the one the claim describes, whose sums
range over the minified files only. -/
theorem aggregate_reduction_counts_copied_files :
    (build demoEnv "src" "dist" (.ok siteTree)).state.originalSize = 15 ∧
      minifiedSource (build demoEnv "src" "dist" (.ok siteTree)).state.logs = 10 ∧
      (build demoEnv "src" "dist" (.ok siteTree)).summary.map (·.totalMinifiedReduction) ≠
        some (claimedReduction (build demoEnv "src" "dist" (.ok siteTree)).state.logs) := by
  refine ⟨by decide, by decide, by decide⟩

/-- C3. When a handler takes one value from the reload channel, the loop body writes the
fixed `reload` message exactly once to every registered client, going on after a
failed write, and the client set afterwards is the set before without exactly the
clients whose write failed. -/
theorem broadcast_reaches_every_client_once (s : HubState) (receiver : webSocketClient)
    (writeErr : webSocketClient → Option OsError) (hrecv : receiver ∈ s.serving)
    (hset : s.clients.Nodup) :
    (wsHandler s (.reload receiver writeErr)).writes =
        s.writes ++ s.clients.map (fun c => ⟨c, "reload", (writeErr c).isNone⟩) ∧
      (∀ c ∈ s.clients,
        ((wsHandler s (.reload receiver writeErr)).writes.drop s.writes.length).countP
          (fun w => w.client = c) = 1) ∧
      (wsHandler s (.reload receiver writeErr)).clients =
        s.clients.filter (fun c => (writeErr c).isNone) := by
  have h := syncMap_Range_sendReload writeErr s.clients [] s rfl (by simpa using hset)
  simp only [List.nil_append] at h
  simp only [wsHandler, hrecv, ↓reduceIte, broadcast]
  refine ⟨h.2.1, ?_, h.1⟩
  intro c hc
  rw [h.2.1, List.drop_left, List.countP_map]
  have : (fun w : Write => decide (w.client = c)) ∘
      (fun c => (⟨c, webSocketMessageReload, (writeErr c).isNone⟩ : Write)) =
      fun x => x == c := by
    funext x
    rw [Bool.eq_iff_iff]
    simp
  rw [this, ← List.count_eq_countP]
  exact List.count_eq_one_of_mem hset hc

/-- C3, with the clients `A`, `B`, `C` and a failing write to `B`: each of the three
is written to once, `A` and `C` receive the message, and the set is `A`, `C`. -/
theorem broadcast_reaches_every_client_once_witness :
    (1 : webSocketClient) ∈ threeClients.serving ∧ threeClients.clients.Nodup ∧
      threeClients.clients = [1, 2, 3] ∧
      (wsHandler threeClients (.reload 1 failsOnB)).writes =
        [⟨1, "reload", true⟩, ⟨2, "reload", false⟩, ⟨3, "reload", true⟩] ∧
      (wsHandler threeClients (.reload 1 failsOnB)).clients = [1, 3] ∧
      ((wsHandler threeClients (.reload 1 failsOnB)).writes =
          threeClients.writes ++
            threeClients.clients.map (fun c => ⟨c, "reload", (failsOnB c).isNone⟩) ∧
        (∀ c ∈ threeClients.clients,
          ((wsHandler threeClients (.reload 1 failsOnB)).writes.drop
            threeClients.writes.length).countP (fun w => w.client = c) = 1) ∧
        (wsHandler threeClients (.reload 1 failsOnB)).clients =
          threeClients.clients.filter (fun c => (failsOnB c).isNone)) :=
  ⟨by decide, by decide, by decide, by decide, by decide,
    broadcast_reaches_every_client_once threeClients 1 failsOnB (by decide) (by decide)⟩

/-- C4 (code defect). On the sample site with every `io.Copy` failing after one byte,
`build` records one byte for `logo.png` as copied, goes on to write `style.css`, the
file after it in walk order, and returns a nil error: the error of `io.Copy` is
discarded. With every `os.Stat` failing, `build` returns no error either: it panics on
the nil `FileInfo`. -/
theorem failed_copy_is_not_reported :
    (build copyFailsEnv "src" "dist" (.ok siteTree)).outcome = .returned none ∧
      FsEffect.copy "dist/logo.png" [97] ∈
        (build copyFailsEnv "src" "dist" (.ok siteTree)).state.effects ∧
      outputPaths (build copyFailsEnv "src" "dist" (.ok siteTree)).state.effects =
        ["dist/index.html", "dist/logo.png", "dist/style.css"] ∧
      (build copyFailsEnv "src" "dist" (.ok siteTree)).summary.map (·.totalFiles) = some 3 ∧
      (build statFailsEnv "src" "dist" (.ok siteTree)).outcome = .panicked := by
  refine ⟨by decide, by decide, by decide, by decide, by decide⟩

/-- C5. What `build` does with a file it processes (an entry that is not a directory,
whose name has no leading dot, and whose `os.Stat` succeeded) is decided by the
specification's classifier applied to the lowercased extension of its path and by
nothing else: markup is minified as `text/html`, a stylesheet as `text/css`, a script
as `application/javascript`, and every other extension takes the copy branch. -/
theorem classification_by_lowercased_extension (env : Env) (srcDir distDir : String)
    (s : BuildState) (srcPath : String) (d : DirEntry) (srcSize : Int)
    (hdir : d.isDir = false) (hname : strings_HasPrefix d.name "." = false)
    (hstat : env.stat srcPath = some srcSize) :
    walkFn env srcDir distDir s srcPath (some d) none =
      match classify (strings_ToLower (filepath_Ext srcPath)) with
      | .markup =>
          minifyFile env
            { s with totalFiles := s.totalFiles + 1
                     originalSize := wrapInt64 (s.originalSize + srcSize) }
            srcPath (env.rel srcDir srcPath) (env.join distDir (env.rel srcDir srcPath))
            "text/html" srcSize
      | .stylesheet =>
          minifyFile env
            { s with totalFiles := s.totalFiles + 1
                     originalSize := wrapInt64 (s.originalSize + srcSize) }
            srcPath (env.rel srcDir srcPath) (env.join distDir (env.rel srcDir srcPath))
            "text/css" srcSize
      | .script =>
          minifyFile env
            { s with totalFiles := s.totalFiles + 1
                     originalSize := wrapInt64 (s.originalSize + srcSize) }
            srcPath (env.rel srcDir srcPath) (env.join distDir (env.rel srcDir srcPath))
            "application/javascript" srcSize
      | .verbatim =>
          copyFile env
            { s with totalFiles := s.totalFiles + 1
                     originalSize := wrapInt64 (s.originalSize + srcSize) }
            srcPath (env.rel srcDir srcPath) (env.join distDir (env.rel srcDir srcPath))
            (strings_ToLower (filepath_Ext srcPath)) := by
  have hcss : (".css" : String) ≠ ".html" := by decide
  have hjs : (".js" : String) ≠ ".html" := by decide
  have hjs2 : (".js" : String) ≠ ".css" := by decide
  simp only [walkFn, hdir, hname, Bool.or_self, Bool.false_eq_true, ↓reduceIte, hstat,
    classify, mediaTypeOf, fileExtHTML, fileExtCSS, fileExtJS, mimeTypeHTML, mimeTypeCSS,
    mimeTypeJS]
  by_cases h1 : strings_ToLower (filepath_Ext srcPath) = ".html"
  · simp [h1]
  · by_cases h2 : strings_ToLower (filepath_Ext srcPath) = ".css"
    · simp [h2, hcss]
    · by_cases h3 : strings_ToLower (filepath_Ext srcPath) = ".js"
      · simp [h3, hjs, hjs2]
      · simp [h1, h2, h3]

/-- C5, at `src/INDEX.HTML` in the sample environment: the upper-case extension is
classified as markup and the file is minified as `text/html`. -/
theorem classification_by_lowercased_extension_witness :
    (⟨"INDEX.HTML", false⟩ : DirEntry).isDir = false ∧
      strings_HasPrefix (⟨"INDEX.HTML", false⟩ : DirEntry).name "." = false ∧
      demoEnv.stat "src/INDEX.HTML" = some 5 ∧
      classify (strings_ToLower (filepath_Ext "src/INDEX.HTML")) = .markup ∧
      walkFn demoEnv "src" "dist" BuildState.init "src/INDEX.HTML" (some ⟨"INDEX.HTML", false⟩)
          none =
        match classify (strings_ToLower (filepath_Ext "src/INDEX.HTML")) with
        | .markup =>
            minifyFile demoEnv
              { BuildState.init with totalFiles := BuildState.init.totalFiles + 1
                                     originalSize := wrapInt64 (BuildState.init.originalSize + 5) }
              "src/INDEX.HTML" (demoEnv.rel "src" "src/INDEX.HTML")
              (demoEnv.join "dist" (demoEnv.rel "src" "src/INDEX.HTML")) "text/html" 5
        | .stylesheet =>
            minifyFile demoEnv
              { BuildState.init with totalFiles := BuildState.init.totalFiles + 1
                                     originalSize := wrapInt64 (BuildState.init.originalSize + 5) }
              "src/INDEX.HTML" (demoEnv.rel "src" "src/INDEX.HTML")
              (demoEnv.join "dist" (demoEnv.rel "src" "src/INDEX.HTML")) "text/css" 5
        | .script =>
            minifyFile demoEnv
              { BuildState.init with totalFiles := BuildState.init.totalFiles + 1
                                     originalSize := wrapInt64 (BuildState.init.originalSize + 5) }
              "src/INDEX.HTML" (demoEnv.rel "src" "src/INDEX.HTML")
              (demoEnv.join "dist" (demoEnv.rel "src" "src/INDEX.HTML")) "application/javascript" 5
        | .verbatim =>
            copyFile demoEnv
              { BuildState.init with totalFiles := BuildState.init.totalFiles + 1
                                     originalSize := wrapInt64 (BuildState.init.originalSize + 5) }
              "src/INDEX.HTML" (demoEnv.rel "src" "src/INDEX.HTML")
              (demoEnv.join "dist" (demoEnv.rel "src" "src/INDEX.HTML"))
              (strings_ToLower (filepath_Ext "src/INDEX.HTML")) :=
  ⟨rfl, by decide, rfl, by decide,
    classification_by_lowercased_extension demoEnv "src" "dist" BuildState.init
      "src/INDEX.HTML" ⟨"INDEX.HTML", false⟩ 5 rfl (by decide) rfl⟩

/-- C6. When every file operation succeeds, the summary of `build` reports as total
files the number of entries of the tree that are not directories and whose own name
has no leading dot, and as processed files the number of those whose path has the
lowercased extension `.html`, `.css` or `.js`; the second never exceeds the first,
and `build` returns a nil error. -/
theorem build_counts_files (env : Env) (srcDir distDir : String) (tree : FsNode)
    (hok : AllSucceed env) (hread : tree.readable = true) :
    (build env srcDir distDir (.ok tree)).summary.map
        (fun sm => (sm.totalFiles, sm.totalProcessedFiles)) =
        some (((((tree.files env.join srcDir).filter visibleName).length : Nat) : Int),
          ((((tree.files env.join srcDir).filter
            (fun f => visibleName f && isMinifiedPath f.1)).length : Nat) : Int)) ∧
      ((tree.files env.join srcDir).filter
          (fun f => visibleName f && isMinifiedPath f.1)).length ≤
        ((tree.files env.join srcDir).filter visibleName).length ∧
      (build env srcDir distDir (.ok tree)).outcome = .returned none := by
  have hnil := calls_nil_of_allSucceed env srcDir distDir hok tree hread
  have hret : (walked env srcDir distDir (.ok tree)).2 = .nil :=
    walkList_ret_nil env srcDir distDir _ _ hnil
  have htot := walkList_totalFiles env srcDir distDir (rootCalls env.join srcDir (.ok tree))
    { BuildState.init with effects := [.mkdirAll distDir] }
  have hproc := walkList_processedFiles env srcDir distDir (rootCalls env.join srcDir (.ok tree))
    { BuildState.init with effects := [.mkdirAll distDir] }
  rw [reachedCalls_eq_self env srcDir distDir _ hnil] at htot
  rw [okCalls_eq_self env srcDir distDir _ hnil] at hproc
  have hcount : (rootCalls env.join srcDir (.ok tree)).countP
      (fun c => (countedSize env c).isSome) =
      ((tree.files env.join srcDir).filter visibleName).length := by
    have h1 := visible_count_eq (fun _ => true) (rootCalls env.join srcDir (.ok tree))
    simp only [Bool.and_true] at h1
    rw [show (fun c => (countedSize env c).isSome) = (fun c : WalkCall => c.isVisibleFile) from
      funext (counted_iff_visible_of_allSucceed env hok), h1]
    simp only [rootCalls, calls_files_node]
  have hcount2 : (rootCalls env.join srcDir (.ok tree)).countP
      (fun c => c.isVisibleFile && isMinifiedPath c.path) =
      ((tree.files env.join srcDir).filter
        (fun f => visibleName f && isMinifiedPath f.1)).length := by
    rw [visible_count_eq isMinifiedPath]
    simp only [rootCalls, calls_files_node]
  rcases build_of_mkdirAll_ok env srcDir distDir (.ok tree) (hok.mkdirAll distDir) with
    ⟨hp, _⟩ | ⟨_, hout, hsum, _⟩
  · rw [hret] at hp; cases hp
  · refine ⟨?_, ?_, ?_⟩
    · rw [hsum]
      unfold walked
      simp only [Option.map_some', htot, hproc, hcount, hcount2]
      simp [BuildState.init]
    · rw [← List.countP_eq_length_filter, ← List.countP_eq_length_filter]
      apply List.countP_mono_left
      intro f _ hf
      simp only [Bool.and_eq_true] at hf
      exact hf.1
    · rw [hout, hret]

/-- C6, on the site of the scenario: three files in total, two of them processed. -/
theorem build_counts_files_witness :
    AllSucceed demoEnv ∧ siteTree.readable = true ∧
      ((siteTree.files demoEnv.join "src").filter visibleName).length = 3 ∧
      ((siteTree.files demoEnv.join "src").filter
        (fun f => visibleName f && isMinifiedPath f.1)).length = 2 ∧
      (build demoEnv "src" "dist" (.ok siteTree)).summary.map
          (fun sm => (sm.totalFiles, sm.totalProcessedFiles)) =
          some (((((siteTree.files demoEnv.join "src").filter visibleName).length : Nat) : Int),
            ((((siteTree.files demoEnv.join "src").filter
              (fun f => visibleName f && isMinifiedPath f.1)).length : Nat) : Int)) ∧
      ((siteTree.files demoEnv.join "src").filter
          (fun f => visibleName f && isMinifiedPath f.1)).length ≤
        ((siteTree.files demoEnv.join "src").filter visibleName).length ∧
      (build demoEnv "src" "dist" (.ok siteTree)).outcome = .returned none :=
  ⟨demoEnv_allSucceed, by decide, by decide, by decide,
    build_counts_files demoEnv "src" "dist" siteTree demoEnv_allSucceed
      (by decide)⟩

/-- C7. Take a file of the tree that the walk reaches (every call before it was answered
with nil), that is not a directory, whose name has no leading dot and whose lowercased
extension is none of `.html`, `.css`, `.js`. When the steps on it succeed (`os.Stat` and
`os.MkdirAll` before the three the claim names: `os.Open`, `os.Create`, `io.Copy`),
`build` copies into the destination root joined with the relative path exactly the
bytes of the source file, with nothing added. -/
theorem copied_file_is_unchanged (env : Env) (srcDir distDir : String)
    (lstat : Except OsError FsNode) (pre post : List WalkCall) (srcPath name : String)
    (srcSize : Int) (content : Bytes)
    (hcalls : rootCalls env.join srcDir lstat = pre ++ ⟨srcPath, some ⟨name, false⟩, none⟩ :: post)
    (hpre : ∀ c ∈ pre, callRet env srcDir distDir c = .nil)
    (hroot : env.mkdirAll distDir = none)
    (hname : strings_HasPrefix name "." = false)
    (hext : isMinifiedPath srcPath = false)
    (hstat : env.stat srcPath = some srcSize)
    (hmkdir : env.mkdirAll (env.dir (env.join distDir (env.rel srcDir srcPath))) = none)
    (hopen : env.openFile srcPath = .ok content)
    (hcreate : env.create (env.join distDir (env.rel srcDir srcPath)) = none)
    (hcopy : env.copy (env.join distDir (env.rel srcDir srcPath)) srcPath = .ok) :
    FsEffect.copy (env.join distDir (env.rel srcDir srcPath)) content ∈
      (build env srcDir distDir lstat).state.effects := by
  obtain ⟨_, _, _, _, h5, _⟩ := build_state_counters env srcDir distDir lstat hroot
  rw [h5]
  unfold walked
  rw [hcalls, walkList_append_nil env srcDir distDir pre _ _ hpre]
  generalize (walkList (walkFn env srcDir distDir) pre
    { BuildState.init with effects := [.mkdirAll distDir] }).1 = s
  have hv : (⟨srcPath, some ⟨name, false⟩, none⟩ : WalkCall).isVisibleFile = true := by
    simp [WalkCall.isVisibleFile, hname]
  have hstep : FsEffect.copy (env.join distDir (env.rel srcDir srcPath)) content ∈
      (walkFn env srcDir distDir s srcPath (some ⟨name, false⟩) none).1.effects := by
    have := walkFn_of_visible env srcDir distDir s ⟨srcPath, some ⟨name, false⟩, none⟩ hv
    simp only at this
    rw [this, hstat]
    simp [hext, copyFile, hmkdir, hopen, hcreate, copiedBytes, hcopy]
  have hret : callRet env srcDir distDir ⟨srcPath, some ⟨name, false⟩, none⟩ = .nil := by
    rw [← walkFn_ret env srcDir distDir s]
    have := walkFn_of_visible env srcDir distDir s ⟨srcPath, some ⟨name, false⟩, none⟩ hv
    simp only at this
    rw [this, hstat]
    simp [hext, copyFile, hmkdir, hopen, hcreate]
  rw [walkList_cons_nil env srcDir distDir _ post s hret]
  exact effects_mono_walk env srcDir distDir post _ _ hstep

/-- C7, at `logo.png` of the sample site: it is reached after the directory and
`index.html`, and its five bytes arrive unchanged at `dist/logo.png`. -/
theorem copied_file_is_unchanged_witness :
    rootCalls demoEnv.join "src" (.ok siteTree) =
        [⟨"src", some ⟨"src", true⟩, none⟩, ⟨"src/index.html", some ⟨"index.html", false⟩, none⟩] ++
          ⟨"src/logo.png", some ⟨"logo.png", false⟩, none⟩ ::
            [⟨"src/style.css", some ⟨"style.css", false⟩, none⟩] ∧
      demoEnv.join "dist" (demoEnv.rel "src" "src/logo.png") = "dist/logo.png" ∧
      demoEnv.openFile "src/logo.png" = .ok demoContent ∧
      FsEffect.copy (demoEnv.join "dist" (demoEnv.rel "src" "src/logo.png")) demoContent ∈
        (build demoEnv "src" "dist" (.ok siteTree)).state.effects :=
  ⟨by decide, by decide, rfl,
    copied_file_is_unchanged demoEnv "src" "dist" (.ok siteTree)
      [⟨"src", some ⟨"src", true⟩, none⟩, ⟨"src/index.html", some ⟨"index.html", false⟩, none⟩]
      [⟨"src/style.css", some ⟨"style.css", false⟩, none⟩] "src/logo.png" "logo.png" 5 demoContent
      (by decide) (by decide) rfl (by decide) (by decide) rfl rfl rfl rfl rfl⟩

/-- C8 (as amended). The aggregate computation has no guard for a zero divisor. Whenever
`build` logs its summary with an accumulated original size of zero, the division of
line 167 is carried out in `float64`: no error is raised and `build` returns, but the
reported aggregate is not zero. It is NaN when the total saved is zero as well (in
particular for an empty source tree) and an infinity otherwise. -/
theorem zero_original_size_reduction (env : Env) (srcDir distDir : String)
    (lstat : Except OsError FsNode) (sm : Summary)
    (h : (build env srcDir distDir lstat).summary = some sm)
    (h0 : (build env srcDir distDir lstat).state.originalSize = 0) :
    sm.totalMinifiedReduction =
        (if (build env srcDir distDir lstat).state.totalSaved = 0 then Float64.nan
          else Float64.inf (decide ((build env srcDir distDir lstat).state.totalSaved < 0))) ∧
      (∀ neg, sm.totalMinifiedReduction ≠ Float64.fin neg 0) ∧
      ∃ err, (build env srcDir distDir lstat).outcome = .returned err := by
  cases hmk : env.mkdirAll distDir with
  | some e =>
    rw [build_of_mkdirAll_failed env srcDir distDir lstat e hmk] at h
    cases h
  | none =>
    obtain ⟨_, _, h3, h4, _, _⟩ := build_state_counters env srcDir distDir lstat hmk
    rcases build_of_mkdirAll_ok env srcDir distDir lstat hmk with ⟨_, hb⟩ | ⟨_, hout, hsum, _⟩
    · rw [hb] at h
      cases h
    · rw [hsum] at h
      cases h
      rw [h4] at h0
      have key : totalReduction (walked env srcDir distDir lstat).1.totalSaved
          (walked env srcDir distDir lstat).1.originalSize =
          (if (walked env srcDir distDir lstat).1.totalSaved = 0 then Float64.nan
            else Float64.inf (decide ((walked env srcDir distDir lstat).1.totalSaved < 0))) := by
        rw [h0, totalReduction_zero_divisor]
      refine ⟨?_, ?_, _, hout⟩
      · rw [h3]
        simp only
        rw [key]
      · intro neg
        simp only
        rw [key]
        split <;> simp

set_option exponentiation.threshold 4000 in
set_option maxRecDepth 100000 in
/-- C8 (as amended), on an empty source directory. -/
theorem zero_original_size_reduction_witness :
    (build demoEnv "src" "dist" (.ok emptyTree)).summary = some ⟨0, 0, .nan⟩ ∧
      (build demoEnv "src" "dist" (.ok emptyTree)).state.originalSize = 0 ∧
      (build demoEnv "src" "dist" (.ok emptyTree)).state.totalSaved = 0 ∧
      ((⟨0, 0, .nan⟩ : Summary).totalMinifiedReduction =
          (if (build demoEnv "src" "dist" (.ok emptyTree)).state.totalSaved = 0 then Float64.nan
            else Float64.inf
              (decide ((build demoEnv "src" "dist" (.ok emptyTree)).state.totalSaved < 0))) ∧
        (∀ neg, (⟨0, 0, .nan⟩ : Summary).totalMinifiedReduction ≠ Float64.fin neg 0) ∧
        ∃ err, (build demoEnv "src" "dist" (.ok emptyTree)).outcome = .returned err) :=
  ⟨by decide, by decide, by decide,
    zero_original_size_reduction demoEnv "src" "dist" (.ok emptyTree) ⟨0, 0, .nan⟩
      (by decide) (by decide)⟩

set_option exponentiation.threshold 4000 in
set_option maxRecDepth 100000 in
/-- C8 (counterexample). For an empty source directory nothing is processed, the
accumulated original size is zero, and the aggregate `build` reports is NaN: it is
neither of the two zeros of `float64`. -/
theorem empty_tree_reduction_is_nan :
    (build demoEnv "src" "dist" (.ok emptyTree)).state.processedFiles = 0 ∧
      (build demoEnv "src" "dist" (.ok emptyTree)).state.originalSize = 0 ∧
      (build demoEnv "src" "dist" (.ok emptyTree)).summary.map (·.totalMinifiedReduction) =
        some Float64.nan ∧
      Float64.nan ≠ Float64.fin false 0 ∧ Float64.nan ≠ Float64.fin true 0 := by
  refine ⟨by decide, by decide, by decide, by decide, by decide⟩

/-- C9 (code defect). With the clients `A`, `B`, `C` and a failing write to `B`, the
broadcast removes `B` from the client set and does nothing else to it: `Close` has been
called on no connection, the handler of `B` is still inside its `for range reload`
loop, and it is that handler which can take the next value from the channel and send
the next reload to `A` and `C`. The deferred function that deletes and closes a client
only runs once its loop ends, which a failed write does not bring about. -/
theorem failed_client_is_not_closed :
    (wsHandler threeClients (.reload 1 failsOnB)).clients = [1, 3] ∧
      (wsHandler threeClients (.reload 1 failsOnB)).closed = [] ∧
      (2 : webSocketClient) ∈ (wsHandler threeClients (.reload 1 failsOnB)).serving ∧
      (wsHandler (wsHandler threeClients (.reload 1 failsOnB)) (.reload 2 noFailure)).writes =
        (wsHandler threeClients (.reload 1 failsOnB)).writes ++
          [⟨1, "reload", true⟩, ⟨3, "reload", true⟩] ∧
      (wsHandler (wsHandler threeClients (.reload 1 failsOnB)) (.reloadClosed 2)).closed = [2] := by
  refine ⟨by decide, by decide, by decide, by decide, by decide⟩

/-- C10. The hidden-entry filter looks at the own name of each entry only and the walk
of `build` is never pruned. In every run the files written are, in order, a prefix of
the destinations of all the files of the tree (at any depth, whatever the names of the
directories above them) whose own name has no leading dot, and the total-files counter
never exceeds their number: a file whose own name begins with a dot is neither counted
nor written. When every file operation succeeds, all of those files are written and
the counter is exactly their number, files below a hidden directory included. -/
theorem hidden_filter_never_prunes (env : Env) (srcDir distDir : String) (tree : FsNode) :
    outputPaths (build env srcDir distDir (.ok tree)).state.effects <+:
        ((tree.files env.join srcDir).filter visibleName).map
          (fun f => destOf env srcDir distDir f.1) ∧
      (build env srcDir distDir (.ok tree)).state.totalFiles ≤
        (((tree.files env.join srcDir).filter visibleName).length : Nat) ∧
      (AllSucceed env → tree.readable = true →
        outputPaths (build env srcDir distDir (.ok tree)).state.effects =
            ((tree.files env.join srcDir).filter visibleName).map
              (fun f => destOf env srcDir distDir f.1) ∧
          (build env srcDir distDir (.ok tree)).state.totalFiles =
            (((tree.files env.join srcDir).filter visibleName).length : Nat)) := by
  have hexp : ((rootCalls env.join srcDir (.ok tree)).filter WalkCall.isVisibleFile).map
      (fun c => destOf env srcDir distDir c.path) =
      ((tree.files env.join srcDir).filter visibleName).map
        (fun f => destOf env srcDir distDir f.1) := by
    rw [visible_calls_eq (destOf env srcDir distDir)]
    simp only [rootCalls, calls_files_node]
  have hlen : ((rootCalls env.join srcDir (.ok tree)).filter WalkCall.isVisibleFile).length =
      ((tree.files env.join srcDir).filter visibleName).length := by
    have := congrArg List.length hexp
    simpa using this
  cases hmk : env.mkdirAll distDir with
  | some e =>
    rw [build_of_mkdirAll_failed env srcDir distDir _ e hmk]
    refine ⟨?_, ?_, ?_⟩
    · simp [BuildState.init, outputPaths]
    · simp [BuildState.init]
    · intro hok
      rw [hok.mkdirAll distDir] at hmk
      cases hmk
  | none =>
    obtain ⟨h1, _, _, _, h5, _⟩ := build_state_counters env srcDir distDir (.ok tree) hmk
    have hout := walkList_outputs env srcDir distDir (rootCalls env.join srcDir (.ok tree))
      { BuildState.init with effects := [.mkdirAll distDir] }
    have htot := walkList_totalFiles env srcDir distDir (rootCalls env.join srcDir (.ok tree))
      { BuildState.init with effects := [.mkdirAll distDir] }
    rw [h1, h5]
    unfold walked
    rw [hout, htot]
    refine ⟨?_, ?_, ?_⟩
    · rw [← hexp]
      simp only [outputPaths, List.filterMap_cons, List.filterMap_nil, List.nil_append]
      exact ((okCalls_initial env srcDir distDir _).filter _).map _
    · rw [← hlen, ← List.countP_eq_length_filter]
      simp only [BuildState.init, zero_add, Nat.cast_le]
      calc List.countP (fun c => (countedSize env c).isSome)
              (reachedCalls env srcDir distDir (rootCalls env.join srcDir (.ok tree)))
          ≤ List.countP WalkCall.isVisibleFile
              (reachedCalls env srcDir distDir (rootCalls env.join srcDir (.ok tree))) :=
            List.countP_mono_left (fun c _ hc => counted_imp_visible env c hc)
        _ ≤ List.countP WalkCall.isVisibleFile (rootCalls env.join srcDir (.ok tree)) :=
            (reachedCalls_initial env srcDir distDir _).sublist.countP_le _
    · intro hok hread
      have hnil := calls_nil_of_allSucceed env srcDir distDir hok tree hread
      rw [okCalls_eq_self env srcDir distDir _ hnil, reachedCalls_eq_self env srcDir distDir _ hnil,
        hexp, ← hlen, ← List.countP_eq_length_filter,
        show (fun c => (countedSize env c).isSome) = (fun c : WalkCall => c.isVisibleFile) from
          funext (counted_iff_visible_of_allSucceed env hok)]
      simp [BuildState.init, outputPaths]

/-- C10, on a site with `.git/config`, `.hidden` and `index.html`: the file below the
hidden directory is written to `dist/.git/config` and counted, the hidden file is
neither. -/
theorem hidden_filter_never_prunes_witness :
    AllSucceed demoEnv ∧ hiddenTree.readable = true ∧
      ((hiddenTree.files demoEnv.join "src").filter visibleName).map
          (fun f => destOf demoEnv "src" "dist" f.1) = ["dist/.git/config", "dist/index.html"] ∧
      outputPaths (build demoEnv "src" "dist" (.ok hiddenTree)).state.effects <+:
          ((hiddenTree.files demoEnv.join "src").filter visibleName).map
            (fun f => destOf demoEnv "src" "dist" f.1) ∧
      (build demoEnv "src" "dist" (.ok hiddenTree)).state.totalFiles ≤
          (((hiddenTree.files demoEnv.join "src").filter visibleName).length : Nat) ∧
      outputPaths (build demoEnv "src" "dist" (.ok hiddenTree)).state.effects =
          ((hiddenTree.files demoEnv.join "src").filter visibleName).map
            (fun f => destOf demoEnv "src" "dist" f.1) ∧
      (build demoEnv "src" "dist" (.ok hiddenTree)).state.totalFiles =
          (((hiddenTree.files demoEnv.join "src").filter visibleName).length : Nat) :=
  ⟨demoEnv_allSucceed, by decide, by decide,
    (hidden_filter_never_prunes demoEnv "src" "dist" hiddenTree).1,
    (hidden_filter_never_prunes demoEnv "src" "dist" hiddenTree).2.1,
    (hidden_filter_never_prunes demoEnv "src" "dist" hiddenTree).2.2 demoEnv_allSucceed
      (by decide)⟩

end Builder
